import Mathlib

/-!
Verification of the conda-pack core (`conda_pack/core.py`) against its
specification.  Python strings are modelled as lists of Unicode code points
(`List Nat`), byte buffers as lists of bytes (`List Nat`, each < 256).
Python's fallible operations are modelled with `Except`.
-/

set_option maxRecDepth 10000

/-- Code points of a Lean string literal, used to transcribe Python string
literals from the source. -/
def strCodes (s : String) : List Nat := s.data.map Char.toNat

/-- The exceptions the core can raise.  `condaPack` is the domain error
(`CondaPackException`); the remaining constructors are the plain Python
errors (`ValueError`, `UnicodeDecodeError`, `AttributeError`) that the code
raises or lets escape. -/
inductive PErr where
  | condaPack : String → PErr
  | valueError : String → PErr
  | unicodeDecodeError : PErr
  | attributeError : PErr
deriving DecidableEq, Repr

/-- Whether an error is the domain error kind (`CondaPackException`). -/
def PErr.isCondaPack : PErr → Bool
  | .condaPack _ => true
  | _ => false

/-- `PREFIX_PLACEHOLDER` from core.py (the string is split there exactly as
here, so as not to appear in the file bytes unintentionally). -/
def PREFIX_PLACEHOLDER : List Nat :=
  strCodes "/opt/anaconda1anaconda2" ++ strCodes "anaconda3"

/-- `BIN_DIR` from core.py on POSIX (`on_win` is rejected at import time). -/
def BIN_DIR : List Nat := strCodes "bin"

/-- Whether a byte is a UTF-8 continuation byte (`0x80..0xBF`). -/
def isCont (b : Nat) : Bool := 0x80 ≤ b && b ≤ 0xBF

/-- Range check for the first continuation byte of a 3-byte sequence
(strict UTF-8: no overlong forms, no surrogates), as Python's strict
`bytes.decode('utf-8')` enforces. -/
def okE (b c1 : Nat) : Bool :=
  if b = 0xE0 then 0xA0 ≤ c1 && c1 ≤ 0xBF
  else if b = 0xED then 0x80 ≤ c1 && c1 ≤ 0x9F
  else isCont c1

/-- Range check for the first continuation byte of a 4-byte sequence
(strict UTF-8: no overlong forms, max U+10FFFF). -/
def okF (b c1 : Nat) : Bool :=
  if b = 0xF0 then 0x90 ≤ c1 && c1 ≤ 0xBF
  else if b = 0xF4 then 0x80 ≤ c1 && c1 ≤ 0x8F
  else isCont c1

/-- One step of strict UTF-8 decoding: given the first byte and the remaining
bytes, produce the decoded code point and the bytes after the sequence, or
`none` on malformed input (truncation, bad continuation, overlong form,
surrogate, out-of-range lead byte). -/
def utf8Step (b : Nat) (rest : List Nat) : Option (Nat × List Nat) :=
  if b < 0x80 then some (b, rest)
  else if 0xC2 ≤ b && b ≤ 0xDF then
    match rest with
    | c1 :: r =>
      if isCont c1 then some ((b - 0xC0) * 0x40 + (c1 - 0x80), r) else none
    | [] => none
  else if 0xE0 ≤ b && b ≤ 0xEF then
    match rest with
    | c1 :: c2 :: r =>
      if okE b c1 && isCont c2 then
        some ((b - 0xE0) * 0x1000 + (c1 - 0x80) * 0x40 + (c2 - 0x80), r)
      else none
    | _ => none
  else if 0xF0 ≤ b && b ≤ 0xF4 then
    match rest with
    | c1 :: c2 :: c3 :: r =>
      if okF b c1 && isCont c2 && isCont c3 then
        some ((b - 0xF0) * 0x40000 + (c1 - 0x80) * 0x1000 + (c2 - 0x80) * 0x40 + (c3 - 0x80), r)
      else none
    | _ => none
  else none

/-- Fueled driver for `decodeUtf8` (each step consumes at least one byte, so
fuel equal to the byte count always suffices). -/
def decodeUtf8F : Nat → List Nat → Option (List Nat)
  | _, [] => some []
  | 0, _ :: _ => none
  | n + 1, b :: rest =>
    match utf8Step b rest with
    | none => none
    | some (c, r) => (decodeUtf8F n r).map (c :: ·)

/-- Strict UTF-8 decoding of a byte list into code points; `none` models
Python's `UnicodeDecodeError` from `bytes.decode('utf-8')`. -/
def decodeUtf8 (l : List Nat) : Option (List Nat) := decodeUtf8F l.length l

/-- UTF-8 encoding of one code point. -/
def encodeChar (c : Nat) : List Nat :=
  if c < 0x80 then [c]
  else if c < 0x800 then [0xC0 + c / 0x40, 0x80 + c % 0x40]
  else if c < 0x10000 then [0xE0 + c / 0x1000, 0x80 + c / 0x40 % 0x40, 0x80 + c % 0x40]
  else [0xF0 + c / 0x40000, 0x80 + c / 0x1000 % 0x40, 0x80 + c / 0x40 % 0x40, 0x80 + c % 0x40]

/-- UTF-8 encoding of a code-point list; models Python `str.encode('utf-8')`. -/
def encodeUtf8 (s : List Nat) : List Nat := (s.map encodeChar).flatten

/-- Python's substring test `p in s` (on strings or bytes alike). -/
def containsSub : List Nat → List Nat → Bool
  | [], p => p.isPrefixOf []
  | s@(_ :: t), p => p.isPrefixOf s || containsSub t p

/-- Fueled helper for `countOcc`: left-to-right non-overlapping occurrence
count, one unit of fuel per scanned position. -/
def countOccF (p : List Nat) : Nat → List Nat → Nat
  | 0, _ => 0
  | _ + 1, [] => 0
  | n + 1, s@(_ :: t) =>
    if p.isPrefixOf s then 1 + countOccF p n (s.drop p.length) else countOccF p n t

/-- Python's `s.count(p)`: number of non-overlapping occurrences scanned from
the left (for the empty pattern Python returns `len(s) + 1`). -/
def countOcc (s p : List Nat) : Nat :=
  if p = [] then s.length + 1 else countOccF p s.length s

/-- Fueled helper for `pyReplace`: leftmost non-overlapping replacement, one
unit of fuel per scanned position. -/
def replaceAllF (q p : List Nat) : Nat → List Nat → List Nat
  | 0, s => s
  | _ + 1, [] => []
  | n + 1, s@(c :: t) =>
    if p.isPrefixOf s then q ++ replaceAllF q p n (s.drop p.length)
    else c :: replaceAllF q p n t

/-- Python's `s.replace(p, q)`: every non-overlapping occurrence of `p`,
scanned from the left, replaced by `q` (for the empty pattern Python inserts
`q` at every position). -/
def pyReplace (s p q : List Nat) : List Nat :=
  if p = [] then q ++ s.flatMap (fun c => c :: q) else replaceAllF q p s.length s

/-- `strip_prefix` from core.py: try to decode as UTF-8; on failure return the
data unchanged with no placeholder; if the prefix does not occur in the text,
likewise; otherwise replace every occurrence of the prefix with the
placeholder and return the re-encoded bytes together with the placeholder. -/
def strip_prefix (data pre : List Nat) (placeholder : List Nat := PREFIX_PLACEHOLDER) :
    List Nat × Option (List Nat) :=
  match decodeUtf8 data with
  | none => (data, none)
  | some s =>
    if containsSub s pre then (encodeUtf8 (pyReplace s pre placeholder), some placeholder)
    else (data, none)

/-- First line of a byte buffer (bytes before the first newline). -/
def firstLine (d : List Nat) : List Nat := d.takeWhile (· ≠ 10)

/-- Bytes of a buffer from the first newline on (empty if none). -/
def restAfterLine (d : List Nat) : List Nat := d.dropWhile (· ≠ 10)

/-- Whether a byte is horizontal whitespace or CR (shebang token separator). -/
def isWSb (b : Nat) : Bool := b = 32 || b = 9 || b = 13

/-- Modelled from the spec: `SHEBANG_REGEX` lives in `conda_pack/prefixes.py`,
which is not under src/.  Per §4.2 the first line is matched against the shape
`#!<whitespace>?<executable>(<whitespace><options>)?`: after `#!` and optional
spaces, the executable is a maximal nonempty run of non-whitespace bytes and
the options are the remainder of the line, leading whitespace included.  The
groups returned are (whole shebang line, executable, options), as bytes. -/
def shebangMatch (d : List Nat) : Option (List Nat × List Nat × List Nat) :=
  match firstLine d with
  | a :: b :: restL =>
    if a = 35 ∧ b = 33 then
      if (restL.dropWhile (· = 32)).takeWhile (fun x => ¬ isWSb x) = [] then none
      else
        some (a :: b :: restL,
          (restL.dropWhile (· = 32)).takeWhile (fun x => ¬ isWSb x),
          (restL.dropWhile (· = 32)).drop
            ((restL.dropWhile (· = 32)).takeWhile (fun x => ¬ isWSb x)).length)
    else none
  | _ => none

/-- The part of a code-point list after its last `/` (code 47); models
Python's `s.split('/')[-1]`. -/
def afterLastSlash (s : List Nat) : List Nat :=
  (s.reverse.takeWhile (· ≠ 47)).reverse

/-- `rewrite_shebang` from core.py.  Given data bytes, the archive target and
the prefix string to match, it matches the shebang (see `shebangMatch`), bails
out with a warning naming the target when the prefix occurs more than once in
the data, rewrites a shebang whose executable starts with the prefix to the
`#!/usr/bin/env <basename><options>` form, and otherwise returns the data
unchanged.  Result: `((data, fixed), warned-target)`; the `Except` layer
models the `UnicodeDecodeError` that `executable.decode('utf-8')` or
`options.decode('utf-8')` raises on invalid UTF-8. -/
def rewrite_shebang (data target pre : List Nat) :
    Except PErr ((List Nat × Bool) × Option (List Nat)) :=
  match shebangMatch data with
  | none => .ok ((data, false), none)
  | some (shebang, exe, opts) =>
    if 1 < countOcc data (encodeUtf8 pre) then .ok ((data, false), some target)
    else if (encodeUtf8 pre).isPrefixOf exe then
      match decodeUtf8 exe, decodeUtf8 opts with
      | some exeS, some optsS =>
        .ok ((pyReplace data shebang
                (encodeUtf8 (strCodes "#!/usr/bin/env " ++ afterLastSlash exeS ++ optsS)),
              true), none)
      | _, _ => .error .unicodeDecodeError
    else .ok ((data, true), none)

/-- The `File` record from core.py: a single archive record. -/
structure File where
  source : List Nat
  target : List Nat
  is_conda : Bool := true
  file_mode : Option (List Nat) := none
  prefix_placeholder : Option (List Nat) := none
deriving DecidableEq, Repr

/-- One action against the archive sink (§6 contract): either stream the
source path (`archive.add`) or stream an in-memory buffer
(`archive.add_bytes`). -/
inductive ArchEntry where
  | path : (source : List Nat) → (target : List Nat) → ArchEntry
  | bytes : (source : List Nat) → (data : List Nat) → (target : List Nat) → ArchEntry
deriving DecidableEq, Repr

/-- A relocation-manifest row `(archive target, placeholder, mode)` as
appended to `prefix_list` (the placeholder slot holds whatever the record
carries, possibly `None`). -/
def Row : Type := List Nat × Option (List Nat) × List Nat

instance : DecidableEq Row := by unfold Row; infer_instance

/-- `addfile` from core.py.  The filesystem reads are passed in explicitly:
`isDir`/`isLink` stand for `os.path.isdir`/`os.path.islink` on `f.source` and
`content` for the bytes read from it.  Returns the archive action, the rows
appended to the relocation manifest, and the warned-about target (if any);
the `Except` layer models the `ValueError` raised on an unknown `file_mode`,
the `AttributeError` from `None.encode('utf-8')` when a text-mode file in the
binary directory has no placeholder, and decode errors from the shebang
rewriter. -/
def addfile (pre : List Nat) (f : File) (isDir isLink : Bool) (content : List Nat) :
    Except PErr (ArchEntry × List Row × Option (List Nat)) :=
  if f.file_mode = none then .ok (.path f.source f.target, [], none)
  else if isDir || isLink then .ok (.path f.source f.target, [], none)
  else if f.file_mode = some (strCodes "unknown") then
    match strip_prefix content pre with
    | (data, none) => .ok (.bytes f.source data f.target, [], none)
    | (data, some ph) =>
      if BIN_DIR.isPrefixOf f.target then
        match rewrite_shebang data f.target ph with
        | .error e => .error e
        | .ok ((data2, fixed), warned) =>
          .ok (.bytes f.source data2 f.target,
               if fixed then [] else [(f.target, some ph, strCodes "text")], warned)
      else
        .ok (.bytes f.source data f.target, [(f.target, some ph, strCodes "text")], none)
  else if f.file_mode = some (strCodes "text") then
    if BIN_DIR.isPrefixOf f.target then
      match f.prefix_placeholder with
      | none => .error .attributeError
      | some ph =>
        match rewrite_shebang content f.target ph with
        | .error e => .error e
        | .ok ((data2, fixed), warned) =>
          .ok (.bytes f.source data2 f.target,
               if fixed then [] else [(f.target, some ph, strCodes "text")], warned)
    else
      .ok (.path f.source f.target,
           [(f.target, f.prefix_placeholder, strCodes "text")], none)
  else if f.file_mode = some (strCodes "binary") then
    .ok (.path f.source f.target,
         [(f.target, f.prefix_placeholder, strCodes "binary")], none)
  else .error (.valueError "unknown file_mode")

deriving instance DecidableEq for Except

/-- Whether a code point is shlex whitespace (`' \t\r\n'`). -/
def isShWS (c : Nat) : Bool := c = 32 || c = 9 || c = 13 || c = 10

/-- Whether a code point is a shlex quote character (`'` or `"`). -/
def isShQuote (c : Nat) : Bool := c = 39 || c = 34

/-- Lexer state of `shlex` in non-POSIX whitespace-split mode: between
tokens, inside a word, or inside a quoted section opened by the given
quote character. -/
inductive ShState where
  | space : ShState
  | word : ShState
  | quote : Nat → ShState

/-- One pass of Python's `shlex.split(line, posix=False)` (whitespace-split
mode, comments off): whitespace separates tokens; a quote at token start
opens a quoted section that is closed (and the token emitted, quotes
retained) by the matching quote; inside a word, quotes are ordinary
characters; an unclosed quote raises `ValueError('No closing quotation')`,
modelled by `Except.error`. -/
def shlexGo : List Nat → ShState → List Nat → List (List Nat) →
    Except Unit (List (List Nat))
  | [], st, tok, acc =>
    match st with
    | .space => .ok acc.reverse
    | .word => .ok (tok :: acc).reverse
    | .quote _ => .error ()
  | c :: t, st, tok, acc =>
    match st with
    | .space =>
      if isShWS c then shlexGo t .space [] acc
      else if isShQuote c then shlexGo t (.quote c) [c] acc
      else shlexGo t .word [c] acc
    | .word =>
      if isShWS c then shlexGo t .space [] (tok :: acc)
      else shlexGo t .word (tok ++ [c]) acc
    | .quote q =>
      if c = q then shlexGo t .space [] ((tok ++ [c]) :: acc)
      else shlexGo t (.quote q) (tok ++ [c]) acc

/-- Python's `shlex.split(line, posix=False)` as used by `read_has_prefix`. -/
def shlexSplitNP (line : List Nat) : Except Unit (List (List Nat)) :=
  shlexGo line .space [] []

/-- Python's `x.strip('"\'')`: drop every leading and trailing quote
character. -/
def stripQuotes (l : List Nat) : List Nat :=
  ((l.dropWhile isShQuote).reverse.dropWhile isShQuote).reverse

/-- `read_has_prefix` from core.py, over the lines of an `info/has_prefix`
file.  Each line is shell-split (non-POSIX, quotes retained) and the tokens
stripped of quote characters; one token maps the path to
`(PREFIX_PLACEHOLDER, 'text')`, three tokens map the third (the path) to the
first two `(placeholder, mode)`, and any other count raises
`ValueError('Failed to parse has_prefix file')`.  The dict is modelled as an
association list in insertion order (later lines overriding is realised by
`lookupLast`).  `hasPrefixLine` is the per-line body of the loop. -/
def hasPrefixLine (out : List (List Nat × (List Nat × List Nat))) (line : List Nat) :
    Except PErr (List (List Nat × (List Nat × List Nat))) :=
  match shlexSplitNP line with
  | .error _ => .error (.valueError "No closing quotation")
  | .ok toks =>
    match toks.map stripQuotes with
    | [p] => .ok (out ++ [(p, (PREFIX_PLACEHOLDER, strCodes "text"))])
    | [a, b, p] => .ok (out ++ [(p, (a, b))])
    | _ => .error (.valueError "Failed to parse has_prefix file")

/-- `read_has_prefix` from core.py over the lines of the file: fold
`hasPrefixLine` across them. -/
def read_has_prefix (lines : List (List Nat)) :
    Except PErr (List (List Nat × (List Nat × List Nat))) :=
  lines.foldlM hasPrefixLine []

/-- Python dict lookup over the association-list model: the latest binding of
the key wins, `none` if absent. -/
def lookupLast (m : List (List Nat × (List Nat × List Nat))) (k : List Nat) :
    Option (List Nat × List Nat) :=
  (m.reverse.find? (fun e => e.1 = k)).map (·.2)

/-- One entry of a package's `info/paths.json` (`_path`, optional
`prefix_placeholder`, optional `file_mode`; other keys are ignored by the
code). -/
structure PathsEntry where
  path : List Nat
  prefix_placeholder : Option (List Nat) := none
  file_mode : Option (List Nat) := none
deriving DecidableEq, Repr

/-- `managed_file` from core.py: build the `File` record for one managed
path, remapping noarch-python targets (`site-packages/`, `python-scripts/`;
the code keeps the separator by slicing `_path[13:]` and `_path[14:]`). -/
def managed_file (is_noarch : Bool) (site_packages pkg path : List Nat)
    (ph : Option (List Nat) := none) (fm : Option (List Nat) := none) : File :=
  let target :=
    if is_noarch then
      if (strCodes "site-packages/").isPrefixOf path then site_packages ++ path.drop 13
      else if (strCodes "python-scripts/").isPrefixOf path then BIN_DIR ++ path.drop 14
      else path
    else path
  { source := pkg ++ [47] ++ path, target := target, is_conda := true,
    prefix_placeholder := ph, file_mode := fm }

/-- The package-cache metadata `load_managed_package` reads for one cached
package: its noarch type (from `info/link.json` / `package_metadata.json`),
the `info/paths.json` entries when that file exists, otherwise the
`info/files` list and the optional `info/has_prefix` lines, plus the
`files` list of the conda-meta record (used for noarch extras). -/
structure PkgCached where
  src : List Nat
  noarchPython : Bool
  pathsJson : Option (List PathsEntry) := none
  filesList : List (List Nat) := []
  hasPrefixLines : Option (List (List Nat)) := none
  infoFiles : List (List Nat) := []
deriving DecidableEq, Repr

/-- `load_managed_package` from core.py: expand one cached package into file
records.  Prefers `info/paths.json`; otherwise reads `info/files` with the
parsed `info/has_prefix` overrides; for noarch-python packages, conda-meta
`files` entries absent from the produced targets are added sourced from the
environment with mode `unknown` under the binary directory and `None`
elsewhere. -/
def noarchExtras (pre : List Nat) (pkg : PkgCached) (files : List File) : List File :=
  (pkg.infoFiles.filter (fun fil => ¬ (files.map (·.target)).contains fil)).map (fun fil =>
    { source := pre ++ [47] ++ fil, target := fil, is_conda := true,
      prefix_placeholder := none,
      file_mode := if BIN_DIR.isPrefixOf fil then some (strCodes "unknown") else none : File })

/-- `load_managed_package`, continued: dispatch between `info/paths.json`,
`info/files` with `info/has_prefix` overrides, and bare `info/files`; for
noarch-python packages append the extras (`noarchExtras`). -/
def load_managed_package (pkg : PkgCached) (pre site_packages : List Nat) :
    Except PErr (List File) :=
  match pkg.pathsJson with
  | some entries =>
    let files := entries.map (fun r =>
      managed_file pkg.noarchPython site_packages pkg.src r.path r.prefix_placeholder r.file_mode)
    .ok (if pkg.noarchPython then files ++ noarchExtras pre pkg files else files)
  | none =>
    match pkg.hasPrefixLines with
    | some lines =>
      match read_has_prefix lines with
      | .error e => .error e
      | .ok prefixes =>
        let files := pkg.filesList.map (fun p =>
          match lookupLast prefixes p with
          | some (ph, fm) =>
            managed_file pkg.noarchPython site_packages pkg.src p (some ph) (some fm)
          | none => managed_file pkg.noarchPython site_packages pkg.src p)
        .ok (if pkg.noarchPython then files ++ noarchExtras pre pkg files else files)
    | none =>
      let files := pkg.filesList.map (fun p =>
        managed_file pkg.noarchPython site_packages pkg.src p)
      .ok (if pkg.noarchPython then files ++ noarchExtras pre pkg files else files)

/-- One conda-meta record as `load_environment` consumes it: either the
package cache at `link.source` exists (`cached`) or it was cleared
(`uncached`, with the record's `files` list). -/
inductive PkgMeta where
  | cached : (name version url : List Nat) → PkgCached → PkgMeta
  | uncached : (name version url : List Nat) → (files : List (List Nat)) → PkgMeta
deriving DecidableEq, Repr

/-- The record-construction half of `collect_unmanaged` from core.py.  The
filesystem walk itself and `find_py_source` (from `conda_pack/compat.py`,
not under src/) are abstracted: `walked` is the set of prefix-relative paths
the walk produced and `fps` the `find_py_source` function.  The code
subtracts managed targets and `bin/{conda,activate,deactivate}`, filters
editor backups, `.DS_Store` files and compiled files whose Python source is
managed, and emits the survivors as unmanaged records with mode `unknown`. -/
def collect_unmanaged (pre : List Nat) (walked : List (List Nat))
    (fps : List Nat → Option (List Nat)) (managed : List File) : List File :=
  let managedT := managed.map (·.target)
  let removeT := [strCodes "bin/conda", strCodes "bin/activate", strCodes "bin/deactivate"]
  let res := walked.filter (fun p => !(managedT.contains p) && !(removeT.contains p))
  (res.filter (fun p =>
      !([126].isSuffixOf p) && !((strCodes ".DS_Store").isSuffixOf p) &&
      !(match fps p with | some q => managedT.contains q | none => false))).map
    (fun p =>
      { source := pre ++ [47] ++ p, target := p, is_conda := false,
        prefix_placeholder := none, file_mode := some (strCodes "unknown") })

/-- The two activation-script records (`_scripts`) always appended by
`load_environment`: `File(source, target)` with default mode `None`. -/
def scriptFiles : List File :=
  [{ source := strCodes "scripts/posix/activate", target := strCodes "bin/activate" },
   { source := strCodes "scripts/posix/deactivate", target := strCodes "bin/deactivate" }]

/-- `load_environment` from core.py, over the parsed conda-meta records (the
prefix/conda-meta existence checks, `find_site_packages` and the editable
check run before this part; the filesystem walk behind `collect_unmanaged`
is abstracted as in that definition).  Uncached packages yield records
sourced from the environment with mode `unknown`; with policy `raise` and a
nonempty uncached list the domain error is raised. -/
def expandPkg (pre site_packages : List Nat) (acc : List File) (p : PkgMeta) :
    Except PErr (List File) :=
  match p with
  | .uncached _ _ _ fl =>
    .ok (acc ++ fl.map (fun f =>
      { source := pre ++ [47] ++ f, target := f, is_conda := true,
        prefix_placeholder := none, file_mode := some (strCodes "unknown") : File }))
  | .cached _ _ _ pk =>
    match load_managed_package pk pre site_packages with
    | .error e => .error e
    | .ok nf => .ok (acc ++ nf)

/-- `load_environment`, continued: fold the per-package expansion over the
conda-meta records, append the unmanaged records and the activation scripts,
and apply the missing-cache policy. -/
def load_environment (pre : List Nat) (pkgs : List PkgMeta) (site_packages : List Nat)
    (walked : List (List Nat)) (fps : List Nat → Option (List Nat))
    (unmanaged : Bool) (onMissingCache : List Nat) : Except PErr (List File) :=
  match pkgs.foldlM (expandPkg pre site_packages) [] with
  | .error e => .error e
  | .ok files =>
    if pkgs.filter (fun p => match p with | .uncached _ _ _ _ => true | _ => false) ≠ [] ∧
        onMissingCache = strCodes "raise" then
      .error (.condaPack "uncached packages")
    else
      .ok ((if unmanaged then files ++ collect_unmanaged pre walked fps files else files) ++
           scriptFiles)

/-- One parsed `conda-meta/python-*.json` record as `find_site_packages`
reads it (only `name` and `version` are consulted). -/
structure CondaMeta where
  name : List Nat
  version : List Nat
deriving DecidableEq, Repr

/-- `find_site_packages` from core.py, over the records parsed from the
`conda-meta/python-*.json` files of the environment.  Requires exactly one
record named `python` and returns `'lib/python%s/site-packages' %
version[:3]` (the code slices the first three characters of the version
string). -/
def find_site_packages (metas : List CondaMeta) : Except PErr (List Nat) :=
  let pythons := metas.filter (fun m => m.name = strCodes "python")
  if 1 < pythons.length then
    .error (.condaPack "Unexpected failure, multiple versions of python found in prefix")
  else
    match pythons with
    | [] => .error (.condaPack "Unexpected failure, no version of python found in prefix")
    | p :: _ =>
      .ok (strCodes "lib/python" ++ p.version.take 3 ++ strCodes "/site-packages")

/-- `CondaEnv._output_and_format` from core.py: infer the archive format from
the output suffix when asked, reject unknown explicit formats, and default a
missing output path to `<name>.<format>`.  `inferFormat` is the
suffix-dispatch and `defaultOutput` the output-path defaulting. -/
def inferFormat (o : List Nat) : List Nat :=
  if (strCodes ".zip").isSuffixOf o then strCodes "zip"
  else if (strCodes ".tar.gz").isSuffixOf o || (strCodes ".tgz").isSuffixOf o then
    strCodes "tar.gz"
  else if (strCodes ".tar.bz2").isSuffixOf o || (strCodes ".tbz2").isSuffixOf o then
    strCodes "tar.bz2"
  else if (strCodes ".tar").isSuffixOf o then strCodes "tar"
  else strCodes "zip"

/-- Default a missing output path to `<name>.<format>` (`os.extsep` is `.`). -/
def defaultOutput (name : List Nat) (output : Option (List Nat)) (format2 : List Nat) :
    List Nat × List Nat :=
  match output with
  | none => (name ++ [46] ++ format2, format2)
  | some o => (o, format2)

def output_and_format (name : List Nat) (output : Option (List Nat)) (format : List Nat) :
    Except PErr (List Nat × List Nat) :=
  if format = strCodes "infer" then
    match output with
    | none => .ok (defaultOutput name none (strCodes "zip"))
    | some o => .ok (defaultOutput name (some o) (inferFormat o))
  else if format ∈ [strCodes "zip", strCodes "tar.gz", strCodes "tgz",
                    strCodes "tar.bz2", strCodes "tbz2", strCodes "tar"] then
    .ok (defaultOutput name output format)
  else .error (.condaPack "Unknown format")

/-- Lookup in the association-list filesystem model. -/
def fsLookup (fs : List (List Nat × List Nat)) (p : List Nat) : Option (List Nat) :=
  (fs.find? (fun e => e.1 = p)).map (·.2)

/-- Remove every entry at a path from the filesystem model (`os.remove`). -/
def fsRemove (fs : List (List Nat × List Nat)) (p : List Nat) : List (List Nat × List Nat) :=
  fs.filter (fun e => e.1 ≠ p)

/-- The effect skeleton of `CondaEnv.pack` from core.py (the archive writer
backends and the progress bar are external, §6): refuse an existing output
path; create a fresh temporary file (`tempfile.mkstemp`); attempt to write
the archive into it, the attempt abstracted as `writeArchive` (its bytes on
success, the propagating exception otherwise); on failure `os.remove` the
temporary file and re-raise; on success `shutil.move` it onto the output
path.  The filesystem is an association list of path/contents pairs. -/
def CondaEnv.pack (fs : List (List Nat × List Nat)) (output tempPath : List Nat)
    (writeArchive : Except PErr (List Nat)) :
    List (List Nat × List Nat) × Except PErr (List Nat) :=
  if (fsLookup fs output).isSome then
    (fs, .error (.condaPack "File already exists"))
  else
    let fs1 := (tempPath, []) :: fs
    match writeArchive with
    | .error e => (fsRemove fs1 tempPath, .error e)
    | .ok data => ((output, data) :: fsRemove fs1 tempPath, .ok output)

/-- No-overlap side conditions between a pattern `p` and a replacement `q`:
`p` is not a factor of `q`, `q` is not a factor of `p`, no nonempty prefix of
`q` is a suffix of `p` and no nonempty suffix of `q` is a prefix of `p`.
Under these conditions a replacement cannot recreate an occurrence of `p`. -/
def NoOverlap (p q : List Nat) : Prop :=
  ¬ p <:+: q ∧ ¬ q <:+: p ∧
    (∀ y, y <+: q → y ≠ [] → ¬ y <:+ p) ∧
    (∀ x, x <:+ q → x ≠ [] → ¬ x <+: p)

/-- The shape of `replaceAllF`'s output: an alternation of `p`-free segments
of the input and copies of `q`, each copy standing where an occurrence of `p`
was consumed. -/
inductive ReplStruct (p q : List Nat) : List Nat → List Nat → Prop
  | free : ∀ {s}, ¬ p <:+: s → ReplStruct p q s s
  | seg : ∀ {s0 s' r}, ¬ p <:+: s0 → ReplStruct p q s' r →
      ReplStruct p q (s0 ++ p ++ s') (s0 ++ q ++ r)

/-- `containsSub` decides the factor (infix) relation. -/
theorem containsSub_iff_factor (p : List Nat) :
    ∀ s, containsSub s p = true ↔ p <:+: s := by
  intro s
  induction s with
  | nil =>
    simp [containsSub, List.isPrefixOf_iff_prefix, List.infix_nil, List.prefix_nil]
  | cons c t ih =>
    simp [containsSub, List.isPrefixOf_iff_prefix, ih, List.infix_cons_iff]

/-- Splitting an occurrence across a concatenation: a factor of `a ++ b` is a
factor of `a`, a factor of `b`, or splits into a nonempty suffix of `a`
followed by a nonempty prefix of `b`. -/
theorem infix_append_split {p a b : List Nat} (h : p <:+: a ++ b) :
    p <:+: a ∨ p <:+: b ∨
      ∃ x y, p = x ++ y ∧ x ≠ [] ∧ y ≠ [] ∧ x <:+ a ∧ y <+: b := by
  obtain ⟨u, v, huv⟩ := h
  rw [List.append_assoc] at huv
  rcases List.append_eq_append_iff.mp huv with ⟨a', ha, hpv⟩ | ⟨c', _, hb⟩
  · rcases List.append_eq_append_iff.mp hpv with ⟨w, ha', _⟩ | ⟨w, hp, hb'⟩
    · left
      exact ⟨u, w, by rw [List.append_assoc, ← ha', ← ha]⟩
    · by_cases hane : a' = []
      · subst hane
        right; left
        refine ⟨[], v, ?_⟩
        simp only [List.nil_append] at hp ⊢
        rw [← hp] at hb'
        exact hb'.symm
      · by_cases hwne : w = []
        · subst hwne
          left
          refine ⟨u, [], ?_⟩
          rw [List.append_nil] at hp
          rw [List.append_nil, hp, ha]
        · right; right
          exact ⟨a', w, hp, hane, hwne, ⟨u, ha.symm⟩, ⟨v, hb'.symm⟩⟩
  · right; left
    exact ⟨c', v, by rw [List.append_assoc, ← hb]⟩

/-- A prefix of a concatenation is a prefix of the left part, or extends it. -/
theorem prefix_append_cases {y q r : List Nat} (h : y <+: q ++ r) :
    y <+: q ∨ q <+: y := by
  obtain ⟨w, hw⟩ := h
  rcases List.append_eq_append_iff.mp hw with ⟨a', hq, _⟩ | ⟨c', hy, _⟩
  · exact Or.inl ⟨a', hq.symm⟩
  · exact Or.inr ⟨c', hy.symm⟩

/-- Under the no-overlap conditions, an output of the `ReplStruct` shape
contains no occurrence of the pattern. -/
theorem ReplStruct.no_occ {p q : List Nat} (hov : NoOverlap p q) :
    ∀ {s o}, ReplStruct p q s o → ¬ p <:+: o := by
  obtain ⟨h1, h2, h3, h4⟩ := hov
  intro s o h
  induction h with
  | free hfree => exact hfree
  | seg hs0 _ ih =>
    intro hcon
    rw [List.append_assoc] at hcon
    rcases infix_append_split hcon with hA | hA | ⟨x, y, hp, hxne, hyne, hxsuf, hypre⟩
    · exact hs0 hA
    · rcases infix_append_split hA with hB | hB | ⟨x, y, hp, hxne, hyne, hxsuf, hypre⟩
      · exact h1 hB
      · exact ih hB
      · exact h4 x hxsuf hxne ⟨y, hp.symm⟩
    · rcases prefix_append_cases hypre with hB | hB
      · exact h3 y hB hyne ⟨x, hp.symm⟩
      · exact h2 (hB.isInfix.trans (List.IsSuffix.isInfix ⟨x, hp.symm⟩))

/-- On an input with no occurrence of the pattern, `replaceAllF` is the
identity (any fuel). -/
theorem replaceAllF_no_occ_id (q p : List Nat) :
    ∀ n s, ¬ p <:+: s → replaceAllF q p n s = s := by
  intro n
  induction n with
  | zero => intro s _; rfl
  | succ n ih =>
    intro s hno
    match s with
    | [] => rfl
    | c :: t =>
      have hpre : ¬ p.isPrefixOf (c :: t) = true := by
        intro hx
        exact hno (List.isPrefixOf_iff_prefix.mp hx).isInfix
      simp only [replaceAllF, hpre, if_false, Bool.false_eq_true]
      rw [ih t (fun hx => hno (List.infix_cons hx))]

/-- Appending the pattern consumed at the head of the input, `ReplStruct`
absorbs a leading character. -/
theorem ReplStruct.cons {p q t R : List Nat} (c : Nat)
    (h : ReplStruct p q t R) (hnp : ¬ p <+: (c :: t)) :
    ReplStruct p q (c :: t) (c :: R) := by
  cases h with
  | free hfree =>
    apply ReplStruct.free
    intro hin
    rcases List.infix_cons_iff.mp hin with h2 | h2
    · exact hnp h2
    · exact hfree h2
  | @seg s0 s' r h1 h2 =>
    have hmain := @ReplStruct.seg p q (c :: s0) s' r ?_ h2
    · simpa using hmain
    · intro hin
      rcases List.infix_cons_iff.mp hin with h3 | h3
      · refine hnp (h3.trans ?_)
        exact ⟨p ++ s', by simp⟩
      · exact h1 h3

/-- With enough fuel, `replaceAllF` produces an output of the `ReplStruct`
shape. -/
theorem replStruct_replaceAllF (q p : List Nat) (hp : p ≠ []) :
    ∀ n s, s.length ≤ n → ReplStruct p q s (replaceAllF q p n s) := by
  intro n
  induction n with
  | zero =>
    intro s hlen
    have : s = [] := List.length_eq_zero.mp (Nat.le_zero.mp hlen)
    subst this
    exact ReplStruct.free (by simp [List.infix_nil, hp])
  | succ n ih =>
    intro s hlen
    match s with
    | [] => exact ReplStruct.free (by simp [List.infix_nil, hp])
    | c :: t =>
      by_cases hpre : p.isPrefixOf (c :: t)
      · obtain ⟨w, hw⟩ := List.isPrefixOf_iff_prefix.mp hpre
        have hdrop : (c :: t).drop p.length = w := by
          rw [← hw, List.drop_left]
        have hwlen : w.length ≤ n := by
          have := congrArg List.length hw
          simp [List.length_append] at this
          have hppos : 0 < p.length := List.length_pos.mpr hp
          simp at hlen
          omega
        simp only [replaceAllF, hpre, if_true, hdrop]
        have hmain := @ReplStruct.seg p q [] w (replaceAllF q p n w)
          (by simp [List.infix_nil, hp]) (ih w hwlen)
        rw [← hw]
        simpa using hmain
      · simp only [replaceAllF, hpre, if_false, Bool.false_eq_true]
        refine ReplStruct.cons c (ih t ?_) ?_
        · simp at hlen; omega
        · intro hx
          exact hpre (List.isPrefixOf_iff_prefix.mpr hx)

/-- Replacing every occurrence of a nonempty pattern by a non-overlapping
replacement leaves no occurrence of the pattern. -/
theorem pyReplace_no_occ {p q : List Nat} (s : List Nat) (hp : p ≠ [])
    (hov : NoOverlap p q) : ¬ p <:+: pyReplace s p q := by
  unfold pyReplace
  rw [if_neg hp]
  exact ReplStruct.no_occ hov (replStruct_replaceAllF q p hp s.length s le_rfl)

/-- When the input starts with the (nonempty) pattern and the pattern does not
occur in the remainder, `pyReplace` replaces exactly that head occurrence. -/
theorem pyReplace_single {p rest : List Nat} (q : List Nat) (hp : p ≠ [])
    (hno : ¬ p <:+: rest) : pyReplace (p ++ rest) p q = q ++ rest := by
  unfold pyReplace
  rw [if_neg hp]
  match p, hp with
  | a :: p', _ =>
    have hpre : (a :: p').isPrefixOf ((a :: p') ++ rest) = true :=
      List.isPrefixOf_iff_prefix.mpr (List.prefix_append _ _)
    have hcons : (a :: p') ++ rest = a :: (p' ++ rest) := by simp
    have hlen : ((a :: p') ++ rest).length = (p' ++ rest).length + 1 := by simp
    rw [hcons]
    rw [hcons] at hpre
    simp only [hcons] at hlen ⊢
    rw [hlen]
    simp only [replaceAllF, hpre, if_true]
    have hdrop : (a :: (p' ++ rest)).drop (a :: p').length = rest := by
      rw [← hcons, List.drop_left]
    rw [hdrop, replaceAllF_no_occ_id _ _ _ _ hno]

/-- Dropping the pattern length from a concatenation whose left part is at
least that long. -/
theorem drop_mid (p u v : List Nat) (h : p.length ≤ u.length) :
    (u ++ p ++ v).drop p.length = u.drop p.length ++ p ++ v := by
  rw [List.append_assoc, List.drop_append_of_le_length h, ← List.append_assoc]

/-- With enough fuel, the scan counts at least one occurrence. -/
theorem countOccF_pos (p : List Nat) (hp : p ≠ []) :
    ∀ n u v, (u ++ p ++ v).length ≤ n → 1 ≤ countOccF p n (u ++ p ++ v) := by
  intro n
  induction n with
  | zero =>
    intro u v hlen
    have := List.length_pos.mpr hp
    rw [List.length_append, List.length_append] at hlen
    omega
  | succ n ih =>
    intro u v hlen
    match u with
    | [] =>
      obtain ⟨a, p', hpc⟩ := List.exists_cons_of_ne_nil hp
      have hshape : [] ++ p ++ v = a :: (p' ++ v) := by simp [hpc]
      have hpre : p.isPrefixOf (a :: (p' ++ v)) = true := by
        apply List.isPrefixOf_iff_prefix.mpr
        rw [hpc]
        exact ⟨v, by simp⟩
      rw [hshape]
      simp only [countOccF, hpre, if_true]
      omega
    | c :: u' =>
      have hshape : (c :: u') ++ p ++ v = c :: (u' ++ p ++ v) := by simp
      rw [hshape]
      rw [hshape] at hlen
      by_cases hpre : p.isPrefixOf (c :: (u' ++ p ++ v)) = true
      · simp only [countOccF, hpre, if_true]
        omega
      · simp only [countOccF, hpre, if_false, Bool.false_eq_true]
        refine ih u' v ?_
        simp only [List.length_cons] at hlen
        omega

/-- With enough fuel, two disjoint occurrences make the scan count at least
two. -/
theorem countOccF_two (p : List Nat) (hp : p ≠ []) :
    ∀ n u1 v1 u2 v2, u1 ++ p ++ v1 = u2 ++ p ++ v2 →
      u1.length + p.length ≤ u2.length →
      (u1 ++ p ++ v1).length ≤ n → 2 ≤ countOccF p n (u1 ++ p ++ v1) := by
  intro n
  induction n with
  | zero =>
    intro u1 v1 u2 v2 _ _ hlen
    have := List.length_pos.mpr hp
    rw [List.length_append, List.length_append] at hlen
    omega
  | succ n ih =>
    intro u1 v1 u2 v2 heq hdis hlen
    have hplen : 0 < p.length := List.length_pos.mpr hp
    match u1 with
    | [] =>
      obtain ⟨a, p', hpc⟩ := List.exists_cons_of_ne_nil hp
      have hshape : [] ++ p ++ v1 = a :: (p' ++ v1) := by simp [hpc]
      have hpre : p.isPrefixOf (a :: (p' ++ v1)) = true := by
        apply List.isPrefixOf_iff_prefix.mpr
        rw [hpc]
        exact ⟨v1, by simp⟩
      rw [hshape]
      simp only [countOccF, hpre, if_true]
      have hdrop : (a :: (p' ++ v1)).drop p.length = v1 := by
        rw [← hshape]
        simp only [List.nil_append]
        exact List.drop_left p v1
      rw [hdrop]
      have hv1 : v1 = u2.drop p.length ++ p ++ v2 := by
        have h2 : ([] ++ p ++ v1).drop p.length = (u2 ++ p ++ v2).drop p.length := by
          rw [heq]
        simp only [List.nil_append, List.drop_left] at h2
        rw [h2, drop_mid p u2 v2 (by omega)]
      rw [hv1]
      have hlen2 : p.length + v1.length ≤ n + 1 := by
        simp only [List.nil_append, List.length_append] at hlen
        omega
      have hlenv : (u2.drop p.length ++ p ++ v2).length ≤ n := by
        rw [← hv1]
        omega
      have := countOccF_pos p hp n (u2.drop p.length) v2 hlenv
      omega
    | c :: u1' =>
      have hu2 : u2 ≠ [] := by
        intro hx
        subst hx
        simp only [List.length_cons, List.length_nil] at hdis
        omega
      obtain ⟨d, u2', hu2c⟩ := List.exists_cons_of_ne_nil hu2
      subst hu2c
      have heq2 : c = d ∧ u1' ++ p ++ v1 = u2' ++ p ++ v2 := by
        constructor
        · have := congrArg (List.head? ·) heq
          simpa using this
        · have := congrArg (List.tail ·) heq
          simpa using this
      obtain ⟨hcd, heqt⟩ := heq2
      subst hcd
      have hshape : (c :: u1') ++ p ++ v1 = c :: (u1' ++ p ++ v1) := by simp
      rw [hshape]
      rw [hshape] at hlen
      by_cases hpre : p.isPrefixOf (c :: (u1' ++ p ++ v1)) = true
      · simp only [countOccF, hpre, if_true]
        have hle : p.length ≤ (c :: u2').length := by
          simp only [List.length_cons] at hdis ⊢
          omega
        have hdrop : (c :: (u1' ++ p ++ v1)).drop p.length =
            (c :: u2').drop p.length ++ p ++ v2 := by
          rw [← hshape, heq, drop_mid p (c :: u2') v2 hle]
        rw [hdrop]
        have hlv : ((c :: u2').drop p.length ++ p ++ v2).length ≤ n := by
          rw [← hdrop, List.length_drop]
          simp only [List.length_cons] at hlen ⊢
          omega
        have := countOccF_pos p hp n ((c :: u2').drop p.length) v2 hlv
        omega
      · simp only [countOccF, hpre, if_false, Bool.false_eq_true]
        refine ih u1' v1 u2' v2 heqt ?_ ?_
        · simp only [List.length_cons] at hdis
          omega
        · simp only [List.length_cons] at hlen
          omega

/-- Two disjoint occurrences of a nonempty pattern make Python's count at
least two. -/
theorem countOcc_two {s p u1 v1 u2 v2 : List Nat} (hp : p ≠ [])
    (h1 : s = u1 ++ p ++ v1) (h2 : s = u2 ++ p ++ v2)
    (hdis : u1.length + p.length ≤ u2.length) : 2 ≤ countOcc s p := by
  unfold countOcc
  rw [if_neg hp]
  subst h1
  exact countOccF_two p hp _ u1 v1 u2 v2 h2 hdis le_rfl

/-- Structural facts a successful shebang match guarantees: the matched
shebang group is the (nonempty) first line of the data, the data is that
line followed by the remainder, and the executable group is a factor of the
line. -/
theorem shebangMatch_some {d sh exe opts : List Nat}
    (h : shebangMatch d = some (sh, exe, opts)) :
    sh = firstLine d ∧ sh ≠ [] ∧ d = sh ++ restAfterLine d ∧ exe <:+: sh := by
  rw [shebangMatch.eq_def] at h
  split at h
  next a b restL heq =>
    split at h
    next hab =>
      split at h
      next hexe => exact absurd h (by simp)
      next hexe =>
        simp only [Option.some.injEq, Prod.mk.injEq] at h
        obtain ⟨hsh, hexe2, hopts⟩ := h
        have hshfl : sh = firstLine d := by rw [← hsh, heq]
        refine ⟨hshfl, by rw [← hsh]; simp, ?_, ?_⟩
        · rw [hshfl]
          simp only [firstLine, restAfterLine]
          exact (List.takeWhile_append_dropWhile _ d).symm
        · rw [← hsh, ← hexe2]
          have h1 := @List.takeWhile_prefix Nat (restL.dropWhile (· = 32))
            (fun x => decide ¬ isWSb x = true)
          have h2 := @List.dropWhile_suffix Nat restL (· = 32)
          have h3 : restL <:+ a :: b :: restL :=
            (List.suffix_cons b restL).trans (List.suffix_cons a (b :: restL))
          exact h1.isInfix.trans (h2.isInfix.trans h3.isInfix)
    next hab => exact absurd h (by simp)
  next => exact absurd h (by simp)

/-- When the match succeeds, the count of a prefix of the executable is at
most one, and that prefix actually occurs in the shebang line, the shebang
line cannot reoccur in the remainder of the data. -/
theorem shebang_unique {d sh exe opts pre_b : List Nat}
    (hm : shebangMatch d = some (sh, exe, opts))
    (hpre : pre_b <+: exe) (hpb : pre_b ≠ [])
    (hcount : countOcc d pre_b ≤ 1) : ¬ sh <:+: restAfterLine d := by
  obtain ⟨_, hne, hd, hexe⟩ := shebangMatch_some hm
  intro hocc
  obtain ⟨u, v, huv⟩ := hocc
  have hshin : pre_b <:+: sh := hpre.isInfix.trans hexe
  obtain ⟨x, y, hxy⟩ := hshin
  set rst := restAfterLine d with hr
  -- first occurrence of pre_b, inside the leading shebang line
  have h1 : d = x ++ pre_b ++ (y ++ rst) := by
    rw [hd, ← hxy]
    simp [List.append_assoc]
  -- second occurrence, inside the copy of the shebang line in the remainder
  have h2 : d = (sh ++ u ++ x) ++ pre_b ++ (y ++ v) := by
    rw [hd, ← huv, ← hxy]
    simp [List.append_assoc]
  have hxle : x.length + pre_b.length ≤ sh.length := by
    have := congrArg List.length hxy
    simp [List.length_append] at this
    omega
  have hdis : x.length + pre_b.length ≤ (sh ++ u ++ x).length := by
    simp only [List.length_append]
    omega
  have := countOcc_two hpb h1 h2 hdis
  omega

/-- `encodeUtf8` distributes over cons. -/
theorem encodeUtf8_cons (c : Nat) (t : List Nat) :
    encodeUtf8 (c :: t) = encodeChar c ++ encodeUtf8 t := by
  simp [encodeUtf8]

/-- `encodeUtf8` distributes over append. -/
theorem encodeUtf8_append (s1 s2 : List Nat) :
    encodeUtf8 (s1 ++ s2) = encodeUtf8 s1 ++ encodeUtf8 s2 := by
  simp [encodeUtf8]

/-- Bounds carried by a passing `okE` check. -/
theorem okE_bounds {b c1 : Nat} (h : okE b c1 = true) :
    0x80 ≤ c1 ∧ c1 ≤ 0xBF ∧ (b = 0xE0 → 0xA0 ≤ c1) := by
  unfold okE at h
  split_ifs at h with h1 h2
  · simp at h
    exact ⟨by omega, by omega, fun _ => by omega⟩
  · simp at h
    exact ⟨by omega, by omega, fun hx => absurd hx h1⟩
  · simp [isCont] at h
    exact ⟨by omega, by omega, fun hx => absurd hx h1⟩

/-- Bounds carried by a passing `okF` check. -/
theorem okF_bounds {b c1 : Nat} (h : okF b c1 = true) :
    0x80 ≤ c1 ∧ c1 ≤ 0xBF ∧ (b = 0xF0 → 0x90 ≤ c1) ∧ (b = 0xF4 → c1 ≤ 0x8F) := by
  unfold okF at h
  split_ifs at h with h1 h2
  · simp at h
    exact ⟨by omega, by omega, fun _ => by omega, fun hx => by omega⟩
  · simp at h
    exact ⟨by omega, by omega, fun hx => absurd hx h1, fun _ => by omega⟩
  · simp [isCont] at h
    exact ⟨by omega, by omega, fun hx => absurd hx h1, fun hx => absurd hx h2⟩

/-- A successful decode step re-encodes to exactly the bytes it consumed, and
consumes at least the lead byte. -/
theorem utf8Step_sound {b c : Nat} {rest r : List Nat}
    (h : utf8Step b rest = some (c, r)) :
    encodeChar c ++ r = b :: rest ∧ r.length ≤ rest.length := by
  unfold utf8Step at h
  by_cases h1 : b < 0x80
  · rw [if_pos h1] at h
    obtain ⟨rfl, rfl⟩ : b = c ∧ rest = r := by
      simpa using h
    rw [encodeChar, if_pos h1]
    exact ⟨rfl, le_rfl⟩
  · rw [if_neg h1] at h
    by_cases h2 : (0xC2 ≤ b && b ≤ 0xDF) = true
    · rw [if_pos h2] at h
      simp only [Bool.and_eq_true, decide_eq_true_eq] at h2
      split at h
      next c1 r' =>
        by_cases hc1 : isCont c1 = true
        · rw [if_pos hc1] at h
          simp only [isCont, Bool.and_eq_true, decide_eq_true_eq] at hc1
          obtain ⟨rfl, rfl⟩ : (b - 0xC0) * 0x40 + (c1 - 0x80) = c ∧ r' = r := by
            simpa using h
          constructor
          · rw [encodeChar, if_neg (by omega), if_pos (by omega)]
            have e1 : 0xC0 + ((b - 0xC0) * 0x40 + (c1 - 0x80)) / 0x40 = b := by omega
            have e2 : 0x80 + ((b - 0xC0) * 0x40 + (c1 - 0x80)) % 0x40 = c1 := by omega
            rw [e1, e2]
            rfl
          · simp
        · rw [if_neg hc1] at h
          exact absurd h (by simp)
      next => exact absurd h (by simp)
    · rw [if_neg h2] at h
      by_cases h3 : (0xE0 ≤ b && b ≤ 0xEF) = true
      · rw [if_pos h3] at h
        simp only [Bool.and_eq_true, decide_eq_true_eq] at h3
        split at h
        next c1 c2 r' =>
          by_cases hok : (okE b c1 && isCont c2) = true
          · rw [if_pos hok] at h
            rw [Bool.and_eq_true] at hok
            obtain ⟨hokE, hc2⟩ := hok
            obtain ⟨hb1, hb2, hb3⟩ := okE_bounds hokE
            simp only [isCont, Bool.and_eq_true, decide_eq_true_eq] at hc2
            obtain ⟨rfl, rfl⟩ :
                (b - 0xE0) * 0x1000 + (c1 - 0x80) * 0x40 + (c2 - 0x80) = c ∧ r' = r := by
              simpa using h
            constructor
            · rw [encodeChar,
                  if_neg (by by_cases hE : b = 0xE0 <;> [skip; skip] <;> omega)]
              rw [if_neg ?lo, if_pos (by omega)]
              case lo =>
                by_cases hE : b = 0xE0
                · have := hb3 hE
                  omega
                · have hb0 : 0xE1 ≤ b := by omega
                  omega
              have e1 : 0xE0 + ((b - 0xE0) * 0x1000 + (c1 - 0x80) * 0x40 + (c2 - 0x80)) / 0x1000
                  = b := by omega
              have e2 : 0x80 + ((b - 0xE0) * 0x1000 + (c1 - 0x80) * 0x40 + (c2 - 0x80)) / 0x40
                  % 0x40 = c1 := by omega
              have e3 : 0x80 + ((b - 0xE0) * 0x1000 + (c1 - 0x80) * 0x40 + (c2 - 0x80)) % 0x40
                  = c2 := by omega
              rw [e1, e2, e3]
              rfl
            · simp
              omega
          · rw [if_neg hok] at h
            exact absurd h (by simp)
        next => exact absurd h (by simp)
      · rw [if_neg h3] at h
        by_cases h4 : (0xF0 ≤ b && b ≤ 0xF4) = true
        · rw [if_pos h4] at h
          simp only [Bool.and_eq_true, decide_eq_true_eq] at h4
          split at h
          next c1 c2 c3 r' =>
            by_cases hok : (okF b c1 && isCont c2 && isCont c3) = true
            · rw [if_pos hok] at h
              rw [Bool.and_eq_true, Bool.and_eq_true] at hok
              obtain ⟨⟨hokF, hc2⟩, hc3⟩ := hok
              obtain ⟨hb1, hb2, hb3, hb4⟩ := okF_bounds hokF
              simp only [isCont, Bool.and_eq_true, decide_eq_true_eq] at hc2 hc3
              obtain ⟨rfl, rfl⟩ :
                  (b - 0xF0) * 0x40000 + (c1 - 0x80) * 0x1000 + (c2 - 0x80) * 0x40 + (c3 - 0x80)
                    = c ∧ r' = r := by
                simpa using h
              have hlo : 0x10000 ≤
                  (b - 0xF0) * 0x40000 + (c1 - 0x80) * 0x1000 + (c2 - 0x80) * 0x40 + (c3 - 0x80) := by
                by_cases hF : b = 0xF0
                · have := hb3 hF
                  omega
                · have : 0xF1 ≤ b := by omega
                  omega
              constructor
              · rw [encodeChar, if_neg (by omega), if_neg (by omega), if_neg (by omega)]
                have e1 : 0xF0 + ((b - 0xF0) * 0x40000 + (c1 - 0x80) * 0x1000 +
                    (c2 - 0x80) * 0x40 + (c3 - 0x80)) / 0x40000 = b := by omega
                have e2 : 0x80 + ((b - 0xF0) * 0x40000 + (c1 - 0x80) * 0x1000 +
                    (c2 - 0x80) * 0x40 + (c3 - 0x80)) / 0x1000 % 0x40 = c1 := by omega
                have e3 : 0x80 + ((b - 0xF0) * 0x40000 + (c1 - 0x80) * 0x1000 +
                    (c2 - 0x80) * 0x40 + (c3 - 0x80)) / 0x40 % 0x40 = c2 := by omega
                have e4 : 0x80 + ((b - 0xF0) * 0x40000 + (c1 - 0x80) * 0x1000 +
                    (c2 - 0x80) * 0x40 + (c3 - 0x80)) % 0x40 = c3 := by omega
                rw [e1, e2, e3, e4]
                rfl
              · simp
                omega
            · rw [if_neg hok] at h
              exact absurd h (by simp)
          next => exact absurd h (by simp)
        · rw [if_neg h4] at h
          exact absurd h (by simp)

/-- Re-encoding a successfully decoded byte list reproduces it (fueled
driver). -/
theorem encode_of_decodeF :
    ∀ n l t, l.length ≤ n → decodeUtf8F n l = some t → encodeUtf8 t = l := by
  intro n
  induction n with
  | zero =>
    intro l t hlen hdec
    have hl : l = [] := List.length_eq_zero.mp (Nat.le_zero.mp hlen)
    subst hl
    obtain rfl : ([] : List Nat) = t := Option.some.inj hdec
    rfl
  | succ n ih =>
    intro l t hlen hdec
    match l with
    | [] =>
      obtain rfl : ([] : List Nat) = t := Option.some.inj hdec
      rfl
    | b :: rest =>
      simp only [decodeUtf8F] at hdec
      split at hdec
      next => exact absurd hdec (by simp)
      next c r hstep =>
        rw [Option.map_eq_some'] at hdec
        obtain ⟨t', hdec', rfl⟩ := hdec
        obtain ⟨henc, hlt⟩ := utf8Step_sound hstep
        have hrl : r.length ≤ n := by
          simp only [List.length_cons] at hlen
          omega
        rw [encodeUtf8_cons, ih r t' hrl hdec', henc]

/-- Re-encoding a successfully decoded byte list reproduces it: strict UTF-8
decoding and encoding are mutually inverse on valid data. -/
theorem encode_of_decode {l t : List Nat} (hdec : decodeUtf8 l = some t) :
    encodeUtf8 t = l :=
  encode_of_decodeF l.length l t le_rfl hdec

/-- C6 (amended).  Behaviour of `rewrite_shebang` on every byte buffer,
target and prefix string, clause by clause.  (1) If the first line matches
the shebang shape and the encoded prefix occurs more than once in the data,
a warning naming the target is emitted and `(data, false)` returned.  (2) If
it occurs at most once, the matched executable starts with the encoded
prefix, and executable and options decode as UTF-8, the first line — and
only the first line — is replaced by `#!/usr/bin/env <basename><options>`
(options preserved verbatim) and the flag is true.  (3) If the executable
does not start with the prefix (and no multi-occurrence bailout applies),
the data is returned unchanged with flag true and no warning.  (4) If no
shebang matches, the data is returned unchanged with flag false. -/
theorem rewrite_shebang_spec (data target pre : List Nat) :
    (∀ sh exe opts, shebangMatch data = some (sh, exe, opts) →
        1 < countOcc data (encodeUtf8 pre) →
        rewrite_shebang data target pre = .ok ((data, false), some target)) ∧
    (∀ sh exe opts exeS optsS, shebangMatch data = some (sh, exe, opts) →
        countOcc data (encodeUtf8 pre) ≤ 1 →
        (encodeUtf8 pre).isPrefixOf exe = true →
        decodeUtf8 exe = some exeS → decodeUtf8 opts = some optsS →
        data = sh ++ restAfterLine data ∧
        rewrite_shebang data target pre =
          .ok ((encodeUtf8 (strCodes "#!/usr/bin/env " ++ afterLastSlash exeS ++ optsS) ++
                restAfterLine data, true), none)) ∧
    (∀ sh exe opts, shebangMatch data = some (sh, exe, opts) →
        countOcc data (encodeUtf8 pre) ≤ 1 →
        ¬ (encodeUtf8 pre).isPrefixOf exe = true →
        rewrite_shebang data target pre = .ok ((data, true), none)) ∧
    (shebangMatch data = none → rewrite_shebang data target pre = .ok ((data, false), none)) := by
  refine ⟨?_, ?_, ?_, ?_⟩
  · intro sh exe opts hm hcount
    unfold rewrite_shebang
    rw [hm]
    dsimp only
    rw [if_pos hcount]
  · intro sh exe opts exeS optsS hm hcount hpre hdexe hdopts
    obtain ⟨hshfl, hshne, hd, hexein⟩ := shebangMatch_some hm
    have hpb : encodeUtf8 pre ≠ [] := by
      intro hx
      rw [hx] at hcount
      unfold countOcc at hcount
      rw [if_pos rfl] at hcount
      have : 1 ≤ data.length := by
        rw [hd]
        cases sh with
        | nil => exact absurd rfl hshne
        | cons a t => simp
      omega
    have hnosh : ¬ sh <:+: restAfterLine data :=
      shebang_unique hm (List.isPrefixOf_iff_prefix.mp hpre) hpb hcount
    refine ⟨hd, ?_⟩
    unfold rewrite_shebang
    rw [hm]
    dsimp only
    rw [if_neg (by omega), if_pos hpre, hdexe, hdopts]
    dsimp only
    have hrepl : pyReplace data sh
        (encodeUtf8 (strCodes "#!/usr/bin/env " ++ afterLastSlash exeS ++ optsS)) =
        encodeUtf8 (strCodes "#!/usr/bin/env " ++ afterLastSlash exeS ++ optsS) ++
          restAfterLine data := by
      conv_lhs => rw [hd]
      exact pyReplace_single _ hshne hnosh
    rw [hrepl]
  · intro sh exe opts hm hcount hpre
    unfold rewrite_shebang
    rw [hm]
    dsimp only
    rw [if_neg (by omega), if_neg hpre]
  · intro hm
    unfold rewrite_shebang
    rw [hm]

/-- C7.  `strip_prefix` returns the data unchanged with no placeholder when
the bytes do not decode as UTF-8; returns them unchanged with no placeholder
when the decoded text does not contain the prefix; and otherwise returns the
UTF-8 encoding of the text with every occurrence of the prefix replaced by
the fixed placeholder token, together with that token. -/
theorem strip_prefix_spec (data pre : List Nat) :
    (decodeUtf8 data = none → strip_prefix data pre = (data, none)) ∧
    (∀ s, decodeUtf8 data = some s → containsSub s pre = false →
        strip_prefix data pre = (data, none)) ∧
    (∀ s, decodeUtf8 data = some s → containsSub s pre = true →
        strip_prefix data pre =
          (encodeUtf8 (pyReplace s pre PREFIX_PLACEHOLDER), some PREFIX_PLACEHOLDER)) := by
  refine ⟨?_, ?_, ?_⟩
  · intro h
    unfold strip_prefix
    rw [h]
  · intro s h hc
    unfold strip_prefix
    rw [h]
    dsimp only
    rw [if_neg (by simp [hc])]
  · intro s h hc
    unfold strip_prefix
    rw [h]
    dsimp only
    rw [if_pos hc]

/-- C3 (amended).  For an unknown-mode regular file whose bytes decode as
UTF-8 and whose target is not under the binary directory, the bytes placed
in the archive are the UTF-8 encoding of a text containing zero occurrences
of the (nonempty) installation prefix, provided the prefix has no overlap
with the placeholder token (the prefix is not a factor of the placeholder or
vice versa, no nonempty prefix of the placeholder is a suffix of the prefix,
and no nonempty suffix of the placeholder is a prefix of the prefix). -/
theorem addfile_unknown_no_prefix (pre : List Nat) (f : File) (content text : List Nat)
    (hmode : f.file_mode = some (strCodes "unknown"))
    (hbin : ¬ BIN_DIR.isPrefixOf f.target = true)
    (hdec : decodeUtf8 content = some text)
    (hpne : pre ≠ [])
    (h1 : ¬ pre <:+: PREFIX_PLACEHOLDER)
    (h2 : ¬ PREFIX_PLACEHOLDER <:+: pre)
    (h3 : ∀ y ∈ PREFIX_PLACEHOLDER.inits, y ≠ [] → ¬ y <:+ pre)
    (h4 : ∀ x ∈ PREFIX_PLACEHOLDER.tails, x ≠ [] → ¬ x <+: pre) :
    ∃ t rows, addfile pre f false false content =
        .ok (.bytes f.source (encodeUtf8 t) f.target, rows, none) ∧
      containsSub t pre = false := by
  have hov : NoOverlap pre PREFIX_PLACEHOLDER :=
    ⟨h1, h2,
     fun y hy hyne => h3 y ((List.mem_inits y PREFIX_PLACEHOLDER).mpr hy) hyne,
     fun x hx hxne => h4 x ((List.mem_tails x PREFIX_PLACEHOLDER).mpr hx) hxne⟩
  unfold addfile
  rw [hmode]
  rw [if_neg (by simp), if_neg (by simp), if_pos rfl]
  by_cases hcon : containsSub text pre = true
  · rw [show strip_prefix content pre =
        (encodeUtf8 (pyReplace text pre PREFIX_PLACEHOLDER), some PREFIX_PLACEHOLDER) by
      unfold strip_prefix
      rw [hdec]
      dsimp only
      rw [if_pos hcon]]
    dsimp only
    rw [if_neg hbin]
    refine ⟨pyReplace text pre PREFIX_PLACEHOLDER,
      [(f.target, some PREFIX_PLACEHOLDER, strCodes "text")], rfl, ?_⟩
    rw [Bool.eq_false_iff]
    intro hx
    exact pyReplace_no_occ text hpne hov ((containsSub_iff_factor pre _).mp hx)
  · have hcf : containsSub text pre = false := Bool.eq_false_iff.mpr hcon
    rw [show strip_prefix content pre = (content, none) by
      unfold strip_prefix
      rw [hdec]
      dsimp only
      rw [if_neg hcon]]
    dsimp only
    refine ⟨text, [], ?_, hcf⟩
    rw [encode_of_decode hdec]

/-- Two suffixes of one list are suffixes of one another (the shorter of the
longer). -/
theorem suffix_excl {s1 s2 o : List Nat} (h1 : s1 <:+ o) (h2 : s2 <:+ o) :
    s1 <:+ s2 ∨ s2 <:+ s1 := by
  rcases Nat.le_total s1.length s2.length with h | h
  · exact Or.inl (List.suffix_of_suffix_length_le h1 h2 h)
  · exact Or.inr (List.suffix_of_suffix_length_le h2 h1 h)

/-- Suffix dispatch: a `.zip` output infers `zip`. -/
theorem inferFormat_zip {o : List Nat} (h : (strCodes ".zip") <:+ o) :
    inferFormat o = strCodes "zip" := by
  unfold inferFormat
  rw [if_pos (List.isSuffixOf_iff_suffix.mpr h)]

/-- Suffix dispatch: a `.tar.gz` or `.tgz` output infers `tar.gz`. -/
theorem inferFormat_targz {o : List Nat}
    (h : (strCodes ".tar.gz") <:+ o ∨ (strCodes ".tgz") <:+ o) :
    inferFormat o = strCodes "tar.gz" := by
  unfold inferFormat
  rw [if_neg ?hz, if_pos ?ht]
  case hz =>
    intro hc
    have hc2 := List.isSuffixOf_iff_suffix.mp hc
    rcases h with h | h <;> rcases suffix_excl hc2 h with h2 | h2 <;> revert h2 <;> decide
  case ht =>
    rcases h with h | h <;> simp [List.isSuffixOf_iff_suffix, h]

/-- Suffix dispatch: a `.tar.bz2` or `.tbz2` output infers `tar.bz2`. -/
theorem inferFormat_tarbz2 {o : List Nat}
    (h : (strCodes ".tar.bz2") <:+ o ∨ (strCodes ".tbz2") <:+ o) :
    inferFormat o = strCodes "tar.bz2" := by
  unfold inferFormat
  rw [if_neg ?hz, if_neg ?hg, if_pos ?hb]
  case hz =>
    intro hc
    have hc2 := List.isSuffixOf_iff_suffix.mp hc
    rcases h with h | h <;> rcases suffix_excl hc2 h with h2 | h2 <;> revert h2 <;> decide
  case hg =>
    intro hc
    rcases (by simpa [List.isSuffixOf_iff_suffix] using hc :
        (strCodes ".tar.gz") <:+ o ∨ (strCodes ".tgz") <:+ o) with hcg | hcg <;>
      rcases h with h | h <;> rcases suffix_excl hcg h with h2 | h2 <;> revert h2 <;> decide
  case hb =>
    rcases h with h | h <;> simp [List.isSuffixOf_iff_suffix, h]

/-- Suffix dispatch: a `.tar` output (and none of the earlier compressed-tar
suffixes can coexist with it) infers `tar`. -/
theorem inferFormat_tar {o : List Nat} (h : (strCodes ".tar") <:+ o) :
    inferFormat o = strCodes "tar" := by
  unfold inferFormat
  rw [if_neg ?hz, if_neg ?hg, if_neg ?hb, if_pos (List.isSuffixOf_iff_suffix.mpr h)]
  case hz =>
    intro hc
    have hc2 := List.isSuffixOf_iff_suffix.mp hc
    rcases suffix_excl hc2 h with h2 | h2 <;> revert h2 <;> decide
  case hg =>
    intro hc
    rcases (by simpa [List.isSuffixOf_iff_suffix] using hc :
        (strCodes ".tar.gz") <:+ o ∨ (strCodes ".tgz") <:+ o) with hcg | hcg <;>
      rcases suffix_excl hcg h with h2 | h2 <;> revert h2 <;> decide
  case hb =>
    intro hc
    rcases (by simpa [List.isSuffixOf_iff_suffix] using hc :
        (strCodes ".tar.bz2") <:+ o ∨ (strCodes ".tbz2") <:+ o) with hcg | hcg <;>
      rcases suffix_excl hcg h with h2 | h2 <;> revert h2 <;> decide

/-- Suffix dispatch: any other suffix infers `zip`. -/
theorem inferFormat_other {o : List Nat}
    (hz : ¬ (strCodes ".zip") <:+ o) (hg : ¬ (strCodes ".tar.gz") <:+ o)
    (hg2 : ¬ (strCodes ".tgz") <:+ o) (hb : ¬ (strCodes ".tar.bz2") <:+ o)
    (hb2 : ¬ (strCodes ".tbz2") <:+ o) (ht : ¬ (strCodes ".tar") <:+ o) :
    inferFormat o = strCodes "zip" := by
  unfold inferFormat
  rw [if_neg (by simp [List.isSuffixOf_iff_suffix, hz]),
      if_neg (by simp [List.isSuffixOf_iff_suffix, hg, hg2]),
      if_neg (by simp [List.isSuffixOf_iff_suffix, hb, hb2]),
      if_neg (by simp [List.isSuffixOf_iff_suffix, ht])]

/-- C9.  Output/format selection: with format `infer` the format is chosen
from the output suffix (`.zip` → zip; `.tar.gz`/`.tgz` → gzip tar;
`.tar.bz2`/`.tbz2` → bzip2 tar; `.tar` → tar; anything else, or no output
path, → zip); an explicit format outside the allowed set fails with the
domain error; a missing output path defaults to `<name>.<format>`. -/
theorem output_and_format_spec (name : List Nat) (output : Option (List Nat)) (fmt : List Nat) :
    (fmt = strCodes "infer" → output = none →
        output_and_format name output fmt =
          .ok (name ++ [46] ++ strCodes "zip", strCodes "zip")) ∧
    (∀ o, fmt = strCodes "infer" → output = some o → (strCodes ".zip") <:+ o →
        output_and_format name output fmt = .ok (o, strCodes "zip")) ∧
    (∀ o, fmt = strCodes "infer" → output = some o →
        (strCodes ".tar.gz") <:+ o ∨ (strCodes ".tgz") <:+ o →
        output_and_format name output fmt = .ok (o, strCodes "tar.gz")) ∧
    (∀ o, fmt = strCodes "infer" → output = some o →
        (strCodes ".tar.bz2") <:+ o ∨ (strCodes ".tbz2") <:+ o →
        output_and_format name output fmt = .ok (o, strCodes "tar.bz2")) ∧
    (∀ o, fmt = strCodes "infer" → output = some o → (strCodes ".tar") <:+ o →
        output_and_format name output fmt = .ok (o, strCodes "tar")) ∧
    (∀ o, fmt = strCodes "infer" → output = some o →
        ¬ (strCodes ".zip") <:+ o → ¬ (strCodes ".tar.gz") <:+ o → ¬ (strCodes ".tgz") <:+ o →
        ¬ (strCodes ".tar.bz2") <:+ o → ¬ (strCodes ".tbz2") <:+ o → ¬ (strCodes ".tar") <:+ o →
        output_and_format name output fmt = .ok (o, strCodes "zip")) ∧
    (fmt ≠ strCodes "infer" →
        fmt ∉ [strCodes "zip", strCodes "tar.gz", strCodes "tgz",
               strCodes "tar.bz2", strCodes "tbz2", strCodes "tar"] →
        output_and_format name output fmt = .error (.condaPack "Unknown format")) ∧
    (fmt ∈ [strCodes "zip", strCodes "tar.gz", strCodes "tgz",
            strCodes "tar.bz2", strCodes "tbz2", strCodes "tar"] →
        fmt ≠ strCodes "infer" → output = none →
        output_and_format name output fmt = .ok (name ++ [46] ++ fmt, fmt)) := by
  refine ⟨?_, ?_, ?_, ?_, ?_, ?_, ?_, ?_⟩
  · rintro rfl rfl
    rfl
  · rintro o rfl rfl h
    unfold output_and_format
    rw [if_pos rfl]
    dsimp only [defaultOutput]
    rw [inferFormat_zip h]
  · rintro o rfl rfl h
    unfold output_and_format
    rw [if_pos rfl]
    dsimp only [defaultOutput]
    rw [inferFormat_targz h]
  · rintro o rfl rfl h
    unfold output_and_format
    rw [if_pos rfl]
    dsimp only [defaultOutput]
    rw [inferFormat_tarbz2 h]
  · rintro o rfl rfl h
    unfold output_and_format
    rw [if_pos rfl]
    dsimp only [defaultOutput]
    rw [inferFormat_tar h]
  · rintro o rfl rfl hz hg hg2 hb hb2 ht
    unfold output_and_format
    rw [if_pos rfl]
    dsimp only [defaultOutput]
    rw [inferFormat_other hz hg hg2 hb hb2 ht]
  · intro hni hna
    unfold output_and_format
    rw [if_neg hni, if_neg hna]
  · rintro hmem hni rfl
    unfold output_and_format
    rw [if_neg hni, if_pos hmem]
    rfl

/-- Witness for C9: an explicit `.tgz` output with format `infer`. -/
theorem output_and_format_spec_witness :
    output_and_format (strCodes "env") (some (strCodes "out.tgz")) (strCodes "infer") =
      .ok (strCodes "out.tgz", strCodes "tar.gz") :=
  (output_and_format_spec (strCodes "env") (some (strCodes "out.tgz"))
    (strCodes "infer")).2.2.1 (strCodes "out.tgz") rfl rfl (Or.inr (by decide))

/-- C8.  During `CondaEnv.pack`, writing goes to a fresh temporary file: if
writing the archive fails with any exception, the temporary file is removed
and the exception propagates, leaving the filesystem exactly as before — in
particular nothing is created or modified at the requested output path; on
success the temporary file is moved onto the output path. -/
theorem pack_spec (fs : List (List Nat × List Nat)) (output tempPath : List Nat)
    (writeArchive : Except PErr (List Nat))
    (hout : fsLookup fs output = none) (htmp : fsLookup fs tempPath = none) :
    (∀ e, writeArchive = .error e →
        CondaEnv.pack fs output tempPath writeArchive = (fs, .error e)) ∧
    (∀ data, writeArchive = .ok data →
        CondaEnv.pack fs output tempPath writeArchive = ((output, data) :: fs, .ok output)) := by
  have hfind : List.find? (fun e => e.1 = tempPath) fs = none := by
    unfold fsLookup at htmp
    exact Option.map_eq_none'.mp htmp
  have hrm : fsRemove ((tempPath, ([] : List Nat)) :: fs) tempPath = fs := by
    unfold fsRemove
    rw [List.filter_cons]
    rw [if_neg (by simp)]
    rw [List.filter_eq_self.mpr]
    intro a ha
    have h2 := List.find?_eq_none.mp hfind a ha
    simpa using h2
  constructor
  · rintro e rfl
    unfold CondaEnv.pack
    rw [if_neg (by rw [hout]; simp)]
    dsimp only
    rw [hrm]
  · rintro data rfl
    unfold CondaEnv.pack
    rw [if_neg (by rw [hout]; simp)]
    dsimp only
    rw [hrm]

/-- Witness for C8: one-entry filesystem, failing and succeeding writes. -/
theorem pack_spec_witness :
    CondaEnv.pack [(strCodes "/sys/a", [1])] (strCodes "env.zip") (strCodes "/tmp/t")
        (.error (.valueError "boom")) =
      ([(strCodes "/sys/a", [1])], .error (.valueError "boom")) ∧
    CondaEnv.pack [(strCodes "/sys/a", [1])] (strCodes "env.zip") (strCodes "/tmp/t")
        (.ok [7]) =
      ((strCodes "env.zip", [7]) :: [(strCodes "/sys/a", [1])], .ok (strCodes "env.zip")) :=
  ⟨(pack_spec [(strCodes "/sys/a", [1])] (strCodes "env.zip") (strCodes "/tmp/t")
      (.error (.valueError "boom")) (by decide) (by decide)).1 (.valueError "boom") rfl,
   (pack_spec [(strCodes "/sys/a", [1])] (strCodes "env.zip") (strCodes "/tmp/t")
      (.ok [7]) (by decide) (by decide)).2 [7] rfl⟩

/-- C5 (amended).  Per line of a `has_prefix` file: one shell token maps that
token (quote-stripped) to the fixed placeholder with mode `text`; three
tokens map the third to the first two; any other token count fails — but
with a plain `ValueError`, not the `CondaPackException` domain error. -/
theorem read_has_prefix_line_spec (line : List Nat) (toks : List (List Nat))
    (hsplit : shlexSplitNP line = .ok toks) :
    (∀ p, toks.map stripQuotes = [p] →
        read_has_prefix [line] = .ok [(p, (PREFIX_PLACEHOLDER, strCodes "text"))]) ∧
    (∀ a b p, toks.map stripQuotes = [a, b, p] →
        read_has_prefix [line] = .ok [(p, (a, b))]) ∧
    (toks.length ≠ 1 → toks.length ≠ 3 →
        read_has_prefix [line] =
          .error (.valueError "Failed to parse has_prefix file")) := by
  have hbase : read_has_prefix [line] = hasPrefixLine [] line := by
    unfold read_has_prefix
    rw [List.foldlM_cons]
    cases h : hasPrefixLine [] line with
    | error e => simp [h]
    | ok out => simp [h, List.foldlM_nil]
  refine ⟨?_, ?_, ?_⟩
  · intro p hmap
    rw [hbase]
    unfold hasPrefixLine
    rw [hsplit]
    dsimp only
    rw [hmap]
    rfl
  · intro a b p hmap
    rw [hbase]
    unfold hasPrefixLine
    rw [hsplit]
    dsimp only
    rw [hmap]
    rfl
  · intro h1 h3
    rw [hbase]
    unfold hasPrefixLine
    rw [hsplit]
    dsimp only
    have hlen : (toks.map stripQuotes).length = toks.length := List.length_map _ _
    match hm : toks.map stripQuotes with
    | [] => rfl
    | [p] =>
      exfalso
      apply h1
      rw [← hlen, hm]
      rfl
    | [p, q] => rfl
    | [p, q, r] =>
      exfalso
      apply h3
      rw [← hlen, hm]
      rfl
    | p :: q :: r :: s :: t => rfl

/-- Witness for C5: the single-token line `foo`. -/
theorem read_has_prefix_line_spec_witness :
    read_has_prefix [strCodes "foo"] =
      .ok [(strCodes "foo", (PREFIX_PLACEHOLDER, strCodes "text"))] :=
  (read_has_prefix_line_spec (strCodes "foo") [strCodes "foo"] (by decide)).1
    (strCodes "foo") (by decide)

/-- Counterexample for C5: a two-token line fails with `ValueError`, which is
not the `CondaPackException` domain error kind. -/
theorem read_has_prefix_two_tokens :
    read_has_prefix [strCodes "a b"] =
      .error (.valueError "Failed to parse has_prefix file") ∧
    (PErr.valueError "Failed to parse has_prefix file").isCondaPack = false := by
  constructor
  · decide
  · rfl

/-- C1 (code evaluated at the failing input).  With exactly one `python`
metadata record of version `3.11.4`, `find_site_packages` slices the first
three characters of the version and returns `lib/python3.1/site-packages`,
not the `lib/python3.11/site-packages` the specification requires; the
zero-record and multiple-record cases do raise the domain error. -/
theorem find_site_packages_truncates :
    find_site_packages [⟨strCodes "python", strCodes "3.11.4"⟩] =
      .ok (strCodes "lib/python3.1/site-packages") ∧
    strCodes "lib/python3.1/site-packages" ≠ strCodes "lib/python3.11/site-packages" ∧
    find_site_packages [] =
      .error (.condaPack "Unexpected failure, no version of python found in prefix") ∧
    find_site_packages [⟨strCodes "python", strCodes "3.9.1"⟩,
                        ⟨strCodes "python", strCodes "3.11.4"⟩] =
      .error (.condaPack "Unexpected failure, multiple versions of python found in prefix") := by
  refine ⟨by decide, by decide, by decide, by decide⟩

/-- C2 (amended).  For the file record `bin/tool` with mode unknown, bytes
`#!/src/env/bin/python\nprint('/src/env')\n` and prefix `/src/env`: the
placeholder substitution leaves two placeholder occurrences, so the shebang
rewriter bails out with a warning naming `bin/tool`; the archived bytes are
the substituted bytes with the shebang unchanged, and the row
`(bin/tool, placeholder, text)` is appended to the relocation manifest. -/
theorem addfile_bin_tool_scenario :
    addfile (strCodes "/src/env")
      { source := strCodes "/src/env/bin/tool", target := strCodes "bin/tool",
        file_mode := some (strCodes "unknown") } false false
      (strCodes "#!/src/env/bin/python\nprint(" ++ [39] ++ strCodes "/src/env" ++ [39] ++
        strCodes ")\n") =
    .ok (.bytes (strCodes "/src/env/bin/tool")
          (strCodes "#!" ++ PREFIX_PLACEHOLDER ++ strCodes "/bin/python\nprint(" ++ [39] ++
            PREFIX_PLACEHOLDER ++ [39] ++ strCodes ")\n")
          (strCodes "bin/tool"),
         [(strCodes "bin/tool", some PREFIX_PLACEHOLDER, strCodes "text")],
         some (strCodes "bin/tool")) := by
  decide

/-- Counterexample for C2: at the claimed input, the archive bytes are not
`#!/usr/bin/env python\nprint('<placeholder>')\n` with an empty manifest —
the produced entry and rows differ from that pair. -/
theorem addfile_bin_tool_claim_false :
    (addfile (strCodes "/src/env")
      { source := strCodes "/src/env/bin/tool", target := strCodes "bin/tool",
        file_mode := some (strCodes "unknown") } false false
      (strCodes "#!/src/env/bin/python\nprint(" ++ [39] ++ strCodes "/src/env" ++ [39] ++
        strCodes ")\n")).map (fun r => (r.1, r.2.1)) ≠
    .ok (.bytes (strCodes "/src/env/bin/tool")
          (strCodes "#!/usr/bin/env python\nprint(" ++ [39] ++ PREFIX_PLACEHOLDER ++ [39] ++
            strCodes ")\n")
          (strCodes "bin/tool"), ([] : List Row)) := by
  decide

/-- Counterexample for C3: with installation prefix `/a` — a factor of the
placeholder token — the substituted bytes of an unknown-mode text file
contain the prefix again: the archived bytes are the placeholder itself,
which contains `/a`. -/
theorem strip_prefix_reintroduces :
    addfile (strCodes "/a")
      { source := strCodes "/e/share/x", target := strCodes "share/x",
        file_mode := some (strCodes "unknown") } false false (strCodes "/a") =
      .ok (.bytes (strCodes "/e/share/x") (encodeUtf8 PREFIX_PLACEHOLDER) (strCodes "share/x"),
           [(strCodes "share/x", some PREFIX_PLACEHOLDER, strCodes "text")], none) ∧
    containsSub (encodeUtf8 PREFIX_PLACEHOLDER) (encodeUtf8 (strCodes "/a")) = true := by
  constructor
  · decide
  · decide

/-- Witness for C3: a non-bin unknown-mode file with prefix `/src/env`. -/
theorem addfile_unknown_no_prefix_witness :
    ∃ t rows, addfile (strCodes "/src/env")
        { source := strCodes "/src/env/share/y", target := strCodes "share/y",
          file_mode := some (strCodes "unknown") } false false
        (strCodes "hello /src/env world\n") =
        .ok (.bytes (strCodes "/src/env/share/y") (encodeUtf8 t) (strCodes "share/y"),
             rows, none) ∧
      containsSub t (strCodes "/src/env") = false :=
  addfile_unknown_no_prefix (strCodes "/src/env")
    { source := strCodes "/src/env/share/y", target := strCodes "share/y",
      file_mode := some (strCodes "unknown") }
    (strCodes "hello /src/env world\n") (strCodes "hello /src/env world\n")
    rfl (by decide) (by decide) (by decide) (by decide) (by decide) (by decide) (by decide)

/-- Counterexample for C6: a shebang whose executable starts with the prefix
but is not valid UTF-8 makes the rewriter raise a `UnicodeDecodeError`
instead of returning the rewritten data. -/
theorem rewrite_shebang_decode_error :
    rewrite_shebang [35, 33, 47, 255, 10] (strCodes "bin/t") (strCodes "/") =
      .error .unicodeDecodeError := by
  decide

/-- Witness for C6: a fully rewritable shebang. -/
theorem rewrite_shebang_spec_witness :
    rewrite_shebang (strCodes "#!/src/env/bin/python\n") (strCodes "bin/x")
        (strCodes "/src/env") =
      .ok ((strCodes "#!/usr/bin/env python\n", true), none) := by
  have h := ((rewrite_shebang_spec (strCodes "#!/src/env/bin/python\n") (strCodes "bin/x")
      (strCodes "/src/env")).2.1 (strCodes "#!/src/env/bin/python")
      (strCodes "/src/env/bin/python") [] (strCodes "/src/env/bin/python") []
      (by decide) (by decide) (by decide) (by decide) (by decide)).2
  rw [h]
  decide

/-- C10 (amended).  A record whose source is a directory or symbolic link is
added to the archive by path with no manifest row, whatever its file_mode;
a regular binary-mode record is added by path and always receives a
`binary` manifest row. -/
theorem addfile_dir_symlink_spec (pre : List Nat) (f : File) (isDir isLink : Bool)
    (content : List Nat) :
    ((isDir = true ∨ isLink = true) →
        addfile pre f isDir isLink content = .ok (.path f.source f.target, [], none)) ∧
    (f.file_mode = some (strCodes "binary") → isDir = false → isLink = false →
        addfile pre f isDir isLink content =
          .ok (.path f.source f.target,
               [(f.target, f.prefix_placeholder, strCodes "binary")], none)) := by
  constructor
  · intro hdl
    unfold addfile
    by_cases hm : f.file_mode = none
    · rw [if_pos hm]
    · rw [if_neg hm, if_pos (by rcases hdl with h | h <;> simp [h])]
  · rintro hmode rfl rfl
    unfold addfile
    rw [if_neg (by simp [hmode]), if_neg (by simp),
        if_neg (by rw [hmode]; decide), if_neg (by rw [hmode]; decide),
        if_pos hmode]

/-- Witness for C10: a symlinked directory entry carrying binary mode, and a
regular binary-mode record. -/
theorem addfile_dir_symlink_spec_witness :
    addfile (strCodes "/e")
      { source := strCodes "/e/d", target := strCodes "d",
        file_mode := some (strCodes "binary"),
        prefix_placeholder := some (strCodes "/e") } true false [] =
      .ok (.path (strCodes "/e/d") (strCodes "d"), [], none) ∧
    addfile (strCodes "/e")
      { source := strCodes "/e/lib/x.so", target := strCodes "lib/x.so",
        file_mode := some (strCodes "binary"),
        prefix_placeholder := some (strCodes "/e") } false false [0, 1] =
      .ok (.path (strCodes "/e/lib/x.so") (strCodes "lib/x.so"),
           [(strCodes "lib/x.so", some (strCodes "/e"), strCodes "binary")], none) :=
  ⟨(addfile_dir_symlink_spec (strCodes "/e") _ true false []).1 (Or.inl rfl),
   (addfile_dir_symlink_spec (strCodes "/e") _ false false [0, 1]).2 rfl rfl rfl⟩

/-- Counterexample for C10's parenthetical: a regular text-mode file under
the binary directory whose shebang is fully resolved receives no manifest
row. -/
theorem addfile_text_bin_no_row :
    addfile (strCodes "/src/env")
      { source := strCodes "/src/env/bin/t", target := strCodes "bin/t",
        file_mode := some (strCodes "text"),
        prefix_placeholder := some (strCodes "/src/env") } false false
      (strCodes "#!/src/env/bin/python\n") =
      .ok (.bytes (strCodes "/src/env/bin/t") (strCodes "#!/usr/bin/env python\n")
            (strCodes "bin/t"), [], none) := by
  decide

/-- `managed_file` carries the metadata's placeholder and mode through
unchanged. -/
theorem managed_file_fields (n : Bool) (sp src path : List Nat)
    (ph fm : Option (List Nat)) :
    (managed_file n sp src path ph fm).file_mode = fm ∧
    (managed_file n sp src path ph fm).prefix_placeholder = ph := by
  constructor <;> simp [managed_file]

/-- Noarch extras never carry mode `text` or `binary`. -/
theorem noarchExtras_not_text {pre : List Nat} {pkg : PkgCached} {files : List File}
    {f : File} (hf : f ∈ noarchExtras pre pkg files) :
    ¬ (f.file_mode = some (strCodes "text") ∨ f.file_mode = some (strCodes "binary")) := by
  unfold noarchExtras at hf
  rw [List.mem_map] at hf
  obtain ⟨fil, _, rfl⟩ := hf
  intro hmode
  have hm2 : (if BIN_DIR.isPrefixOf fil then some (strCodes "unknown") else none) =
        some (strCodes "text") ∨
      (if BIN_DIR.isPrefixOf fil then some (strCodes "unknown") else none) =
        some (strCodes "binary") := hmode
  rcases hm2 with h | h <;> split at h <;>
    first
      | exact absurd h (by decide)
      | exact absurd h (by simp)

/-- A hit of the dict lookup is a member of the association list. -/
theorem lookupLast_mem {m : List (List Nat × (List Nat × List Nat))} {k : List Nat}
    {v : List Nat × List Nat} (h : lookupLast m k = some v) : ∃ q, (q, v) ∈ m := by
  unfold lookupLast at h
  rw [Option.map_eq_some'] at h
  obtain ⟨e, he, hev⟩ := h
  refine ⟨e.1, ?_⟩
  rw [← hev, Prod.mk.eta]
  exact (List.mem_reverse).mp (List.mem_of_find?_eq_some he)

/-- Package expansion preserves the metadata's placeholders: every record it
produces with mode `text` or `binary` carries a present, and when the
metadata's is nonempty a nonempty, placeholder. -/
theorem load_managed_package_inv (pk : PkgCached) (pre sp : List Nat) (nf : List File)
    (hwfp : ∀ es, pk.pathsJson = some es → ∀ e ∈ es,
        (e.file_mode = some (strCodes "text") ∨ e.file_mode = some (strCodes "binary")) →
        e.prefix_placeholder ≠ none ∧ e.prefix_placeholder ≠ some [])
    (hwfh : ∀ lines m, pk.hasPrefixLines = some lines → read_has_prefix lines = .ok m →
        ∀ kv ∈ m, (kv.2.2 = strCodes "text" ∨ kv.2.2 = strCodes "binary") → kv.2.1 ≠ [])
    (hload : load_managed_package pk pre sp = .ok nf) :
    ∀ f ∈ nf,
      (f.file_mode = some (strCodes "text") ∨ f.file_mode = some (strCodes "binary")) →
      f.prefix_placeholder ≠ none ∧ f.prefix_placeholder ≠ some [] := by
  intro f hf hmode
  unfold load_managed_package at hload
  cases hpj : pk.pathsJson with
  | some entries =>
    rw [hpj] at hload
    dsimp only at hload
    obtain rfl := Except.ok.inj hload
    have hmain : ∀ e ∈ entries,
        f = managed_file pk.noarchPython sp pk.src e.path e.prefix_placeholder e.file_mode →
        f.prefix_placeholder ≠ none ∧ f.prefix_placeholder ≠ some [] := by
      intro e he hfe
      have hfields := managed_file_fields pk.noarchPython sp pk.src e.path
        e.prefix_placeholder e.file_mode
      rw [hfe] at hmode ⊢
      rw [hfields.1] at hmode
      rw [hfields.2]
      exact hwfp entries hpj e he hmode
    split at hf
    · rcases List.mem_append.mp hf with hin | hin
      · rw [List.mem_map] at hin
        obtain ⟨e, he, hfe⟩ := hin
        exact hmain e he hfe.symm
      · exact absurd hmode (noarchExtras_not_text hin)
    · rw [List.mem_map] at hf
      obtain ⟨e, he, hfe⟩ := hf
      exact hmain e he hfe.symm
  | none =>
    rw [hpj] at hload
    dsimp only at hload
    cases hpl : pk.hasPrefixLines with
    | some lines =>
      rw [hpl] at hload
      dsimp only at hload
      cases hr : read_has_prefix lines with
      | error e =>
        rw [hr] at hload
        exact absurd hload (by simp)
      | ok prefixes =>
        rw [hr] at hload
        dsimp only at hload
        obtain rfl := Except.ok.inj hload
        have hmain : ∀ p ∈ pk.filesList,
            f = (match lookupLast prefixes p with
              | some (ph, fm) =>
                managed_file pk.noarchPython sp pk.src p (some ph) (some fm)
              | none => managed_file pk.noarchPython sp pk.src p) →
            f.prefix_placeholder ≠ none ∧ f.prefix_placeholder ≠ some [] := by
          intro p _ hfe
          cases hlk : lookupLast prefixes p with
          | some v =>
            obtain ⟨ph, fm⟩ := v
            rw [hlk] at hfe
            dsimp only at hfe
            have hfields := managed_file_fields pk.noarchPython sp pk.src p (some ph) (some fm)
            rw [hfe] at hmode ⊢
            rw [hfields.1] at hmode
            rw [hfields.2]
            obtain ⟨q, hq⟩ := lookupLast_mem hlk
            have hnem : ph ≠ [] := by
              refine hwfh lines prefixes hpl hr (q, (ph, fm)) hq ?_
              rcases hmode with h | h
              · exact Or.inl (Option.some.inj h)
              · exact Or.inr (Option.some.inj h)
            exact ⟨by simp, by simp [hnem]⟩
          | none =>
            rw [hlk] at hfe
            dsimp only at hfe
            have hfields := managed_file_fields pk.noarchPython sp pk.src p none none
            rw [hfe] at hmode
            rw [hfields.1] at hmode
            rcases hmode with h | h <;> exact absurd h (by simp)
        split at hf
        · rcases List.mem_append.mp hf with hin | hin
          · rw [List.mem_map] at hin
            obtain ⟨p, hp, hfe⟩ := hin
            exact hmain p hp hfe.symm
          · exact absurd hmode (noarchExtras_not_text hin)
        · rw [List.mem_map] at hf
          obtain ⟨p, hp, hfe⟩ := hf
          exact hmain p hp hfe.symm
    | none =>
      rw [hpl] at hload
      dsimp only at hload
      obtain rfl := Except.ok.inj hload
      have hmain : ∀ p ∈ pk.filesList,
          f = managed_file pk.noarchPython sp pk.src p →
          f.prefix_placeholder ≠ none ∧ f.prefix_placeholder ≠ some [] := by
        intro p _ hfe
        have hfields := managed_file_fields  pk.noarchPython sp pk.src p none none
        rw [hfe] at hmode
        rw [hfields.1] at hmode
        rcases hmode with h | h <;> exact absurd h (by simp)
      split at hf
      · rcases List.mem_append.mp hf with hin | hin
        · rw [List.mem_map] at hin
          obtain ⟨p, hp, hfe⟩ := hin
          exact hmain p hp hfe.symm
        · exact absurd hmode (noarchExtras_not_text hin)
      · rw [List.mem_map] at hf
        obtain ⟨p, hp, hfe⟩ := hf
        exact hmain p hp hfe.symm

/-- Folding the per-package expansion preserves the placeholder invariant. -/
theorem expandPkg_fold_inv (pre sp : List Nat) :
    ∀ (pkgs : List PkgMeta) (acc res : List File),
    (∀ p ∈ pkgs,
      match p with
      | .uncached _ _ _ _ => True
      | .cached _ _ _ pk =>
        (∀ es, pk.pathsJson = some es → ∀ e ∈ es,
            (e.file_mode = some (strCodes "text") ∨
              e.file_mode = some (strCodes "binary")) →
            e.prefix_placeholder ≠ none ∧ e.prefix_placeholder ≠ some []) ∧
        (∀ lines m, pk.hasPrefixLines = some lines → read_has_prefix lines = .ok m →
            ∀ kv ∈ m, (kv.2.2 = strCodes "text" ∨ kv.2.2 = strCodes "binary") →
            kv.2.1 ≠ [])) →
    (∀ f ∈ acc,
      (f.file_mode = some (strCodes "text") ∨ f.file_mode = some (strCodes "binary")) →
      f.prefix_placeholder ≠ none ∧ f.prefix_placeholder ≠ some []) →
    List.foldlM (expandPkg pre sp) acc pkgs = .ok res →
    ∀ f ∈ res,
      (f.file_mode = some (strCodes "text") ∨ f.file_mode = some (strCodes "binary")) →
      f.prefix_placeholder ≠ none ∧ f.prefix_placeholder ≠ some [] := by
  intro pkgs
  induction pkgs with
  | nil =>
    intro acc res _ hacc hfold
    have : acc = res := by
      rw [List.foldlM_nil] at hfold
      exact Except.ok.inj hfold
    subst this
    exact hacc
  | cons p ps ih =>
    intro acc res hwf hacc hfold
    rw [List.foldlM_cons] at hfold
    cases hst : expandPkg pre sp acc p with
    | error e =>
      rw [hst] at hfold
      exact absurd hfold (by simp [Bind.bind, Except.bind])
    | ok acc2 =>
      rw [hst] at hfold
      have hfold2 : List.foldlM (expandPkg pre sp) acc2 ps = .ok res := by
        simpa [Bind.bind, Except.bind] using hfold
      refine ih acc2 res (fun q hq => hwf q (List.mem_cons_of_mem _ hq)) ?_ hfold2
      intro f hf hmode
      cases p with
      | uncached n v u fl =>
        unfold expandPkg at hst
        dsimp only at hst
        obtain rfl := Except.ok.inj hst
        rcases List.mem_append.mp hf with hin | hin
        · exact hacc f hin hmode
        · rw [List.mem_map] at hin
          obtain ⟨q, _, rfl⟩ := hin
          have hm2 : (some (strCodes "unknown") = some (strCodes "text") ∨
              some (strCodes "unknown") = some (strCodes "binary")) := hmode
          rcases hm2 with h | h <;> exact absurd h (by decide)
      | cached n v u pk =>
        unfold expandPkg at hst
        dsimp only at hst
        cases hlm : load_managed_package pk pre sp with
        | error e =>
          rw [hlm] at hst
          exact absurd hst (by simp)
        | ok nf =>
          rw [hlm] at hst
          dsimp only at hst
          obtain rfl := Except.ok.inj hst
          rcases List.mem_append.mp hf with hin | hin
          · exact hacc f hin hmode
          · have hwfp := (hwf (.cached n v u pk) (List.mem_cons_self _ _))
            exact load_managed_package_inv pk pre sp nf hwfp.1 hwfp.2 hlm f hin hmode

/-- C4 (amended).  Every file record produced by the environment loader with
`file_mode` `text` or `binary` carries a present, nonempty prefix
placeholder, provided the package metadata itself is well formed: every
`paths.json` entry declaring mode `text` or `binary` declares a nonempty
placeholder, and every parsed `has_prefix` override with mode `text` or
`binary` has a nonempty placeholder token.  (Records the loader constructs
itself — uncached, unmanaged, noarch extras, activation scripts — never
carry mode `text`/`binary`.) -/
theorem load_environment_placeholder (pre : List Nat) (pkgs : List PkgMeta)
    (sp : List Nat) (walked : List (List Nat)) (fps : List Nat → Option (List Nat))
    (unmanaged : Bool) (onMissing : List Nat) (files : List File)
    (hwf : ∀ p ∈ pkgs,
      match p with
      | .uncached _ _ _ _ => True
      | .cached _ _ _ pk =>
        (∀ es, pk.pathsJson = some es → ∀ e ∈ es,
            (e.file_mode = some (strCodes "text") ∨
              e.file_mode = some (strCodes "binary")) →
            e.prefix_placeholder ≠ none ∧ e.prefix_placeholder ≠ some []) ∧
        (∀ lines m, pk.hasPrefixLines = some lines → read_has_prefix lines = .ok m →
            ∀ kv ∈ m, (kv.2.2 = strCodes "text" ∨ kv.2.2 = strCodes "binary") →
            kv.2.1 ≠ []))
    (hload : load_environment pre pkgs sp walked fps unmanaged onMissing = .ok files) :
    ∀ f ∈ files,
      (f.file_mode = some (strCodes "text") ∨ f.file_mode = some (strCodes "binary")) →
      f.prefix_placeholder ≠ none ∧ f.prefix_placeholder ≠ some [] := by
  intro f hf hmode
  unfold load_environment at hload
  cases hfold : List.foldlM (expandPkg pre sp) [] pkgs with
  | error e =>
    rw [hfold] at hload
    exact absurd hload (by simp)
  | ok files1 =>
    rw [hfold] at hload
    dsimp only at hload
    split at hload
    · exact absurd hload (by simp)
    · obtain rfl := Except.ok.inj hload
      have hinv1 : ∀ g ∈ files1,
          (g.file_mode = some (strCodes "text") ∨ g.file_mode = some (strCodes "binary")) →
          g.prefix_placeholder ≠ none ∧ g.prefix_placeholder ≠ some [] :=
        expandPkg_fold_inv pre sp pkgs [] files1 hwf (by simp) hfold
      rcases List.mem_append.mp hf with hin | hin
      · have hin2 : f ∈ files1 ∨ f ∈ collect_unmanaged pre walked fps files1 := by
          split at hin
          · rcases List.mem_append.mp hin with h | h
            · exact Or.inl h
            · exact Or.inr h
          · exact Or.inl hin
        rcases hin2 with h | h
        · exact hinv1 f h hmode
        · unfold collect_unmanaged at h
          rw [List.mem_map] at h
          obtain ⟨q, _, rfl⟩ := h
          have hm2 : (some (strCodes "unknown") = some (strCodes "text") ∨
              some (strCodes "unknown") = some (strCodes "binary")) := hmode
          rcases hm2 with h | h <;> exact absurd h (by decide)
      · have hm2 :
            f = ({ source := strCodes "scripts/posix/activate", target := strCodes "bin/activate" } : File) ∨
            f = ({ source := strCodes "scripts/posix/deactivate", target := strCodes "bin/deactivate" } : File) := by
          simpa [scriptFiles] using hin
        rcases hm2 with rfl | rfl <;>
          · rcases hmode with h | h <;> exact absurd h (by simp)

/-- Witness for C4: one cached package whose `paths.json` declares a text
record with a nonempty placeholder. -/
theorem load_environment_placeholder_witness :
    load_environment (strCodes "/env")
        [PkgMeta.cached (strCodes "p") (strCodes "1") (strCodes "u")
          { src := strCodes "/cache/p", noarchPython := false,
            pathsJson :=
              some [{ path := strCodes "lib/a",
                      prefix_placeholder := some (strCodes "/old"),
                      file_mode := some (strCodes "text") }] }]
        (strCodes "lib/python3.9/site-packages") [] (fun _ => none) false
        (strCodes "warn") =
      .ok [{ source := strCodes "/cache/p/lib/a", target := strCodes "lib/a",
             is_conda := true, file_mode := some (strCodes "text"),
             prefix_placeholder := some (strCodes "/old") },
           { source := strCodes "scripts/posix/activate", target := strCodes "bin/activate" },
           { source := strCodes "scripts/posix/deactivate",
             target := strCodes "bin/deactivate" }] ∧
    ∀ f ∈ [({ source := strCodes "/cache/p/lib/a", target := strCodes "lib/a",
              is_conda := true, file_mode := some (strCodes "text"),
              prefix_placeholder := some (strCodes "/old") } : File),
           { source := strCodes "scripts/posix/activate", target := strCodes "bin/activate" },
           { source := strCodes "scripts/posix/deactivate",
             target := strCodes "bin/deactivate" }],
      (f.file_mode = some (strCodes "text") ∨ f.file_mode = some (strCodes "binary")) →
      f.prefix_placeholder ≠ none ∧ f.prefix_placeholder ≠ some [] := by
  have hload : load_environment (strCodes "/env")
      [PkgMeta.cached (strCodes "p") (strCodes "1") (strCodes "u")
        { src := strCodes "/cache/p", noarchPython := false,
          pathsJson :=
            some [{ path := strCodes "lib/a",
                    prefix_placeholder := some (strCodes "/old"),
                    file_mode := some (strCodes "text") }] }]
      (strCodes "lib/python3.9/site-packages") [] (fun _ => none) false
      (strCodes "warn") =
      .ok [{ source := strCodes "/cache/p/lib/a", target := strCodes "lib/a",
             is_conda := true, file_mode := some (strCodes "text"),
             prefix_placeholder := some (strCodes "/old") },
           { source := strCodes "scripts/posix/activate", target := strCodes "bin/activate" },
           { source := strCodes "scripts/posix/deactivate",
             target := strCodes "bin/deactivate" }] := by decide
  refine ⟨hload, load_environment_placeholder (strCodes "/env") _ _ _ _ _ _ _ ?_ hload⟩
  intro p hp
  simp only [List.mem_singleton] at hp
  subst hp
  refine ⟨?_, ?_⟩
  · intro es hes e he hm
    obtain rfl := Option.some.inj hes
    simp only [List.mem_singleton] at he
    subst he
    decide
  · intro lines m hl
    exact absurd hl (by simp)

/-- Counterexample for C4: a `paths.json` entry declaring mode `text` with no
placeholder is propagated into a loader record whose `prefix_placeholder` is
absent. -/
theorem load_environment_missing_placeholder :
    ((load_environment (strCodes "/env")
        [PkgMeta.cached (strCodes "p") (strCodes "1") (strCodes "u")
          { src := strCodes "/cache/p", noarchPython := false,
            pathsJson :=
              some [{ path := strCodes "lib/a",
                      file_mode := some (strCodes "text") }] }]
        (strCodes "lib/python3.9/site-packages") [] (fun _ => none) false
        (strCodes "warn")).toOption.getD []).any
      (fun f => decide (f.file_mode = some (strCodes "text") ∧
        f.prefix_placeholder = none)) = true ∧
    ((load_environment (strCodes "/env")
        [PkgMeta.cached (strCodes "p") (strCodes "1") (strCodes "u")
          { src := strCodes "/cache/p", noarchPython := false,
            pathsJson :=
              some [{ path := strCodes "lib/a",
                      file_mode := some (strCodes "text") }] }]
        (strCodes "lib/python3.9/site-packages") [] (fun _ => none) false
        (strCodes "warn")).toOption.isSome) = true := by
  constructor
  · rfl
  · rfl

/-- Witness for C7: text containing the prefix once. -/
theorem strip_prefix_spec_witness :
    strip_prefix (strCodes "x/src/envy") (strCodes "/src/env") =
      (encodeUtf8 (pyReplace (strCodes "x/src/envy") (strCodes "/src/env")
        PREFIX_PLACEHOLDER), some PREFIX_PLACEHOLDER) :=
  (strip_prefix_spec (strCodes "x/src/envy") (strCodes "/src/env")).2.2
    (strCodes "x/src/envy") (by decide) (by decide)
